import Mathlib

/-!
Verification of the file-listing panel of a dual-pane terminal file manager
(`src/filemanager/panel.c`).  Each section shallowly embeds one component of
the C source and proves properties of the embedding:

* the display-format layout solver (`use_display_format`);
* the navigation/scroll controller (`adjust_top_file`, `move_up`, `move_down`,
  page and jump commands);
* the marking operations (`do_file_mark`, `file_mark`, `unmark_files`,
  `recalculate_panel_summary`);
* the incremental search (`do_search`);
* the tab ring (`create_tab`, `change_tab`, `close_tab`,
  `move_tab_to_other_panel`);
* the tab-strip layout (`display_info`);
* the tab session restore (`_restore_tabs`, `restore_tabs_session`).

C `int` values are modelled as `Int` (with `Int.tdiv`/`Int.tmod` for C's
truncating `/` and `%`) except where a quantity is provably a count.
-/

/-! ## Layout solver (`use_display_format`, panel.c:1851-1939)

A compiled format item carries `requested_field_len` (set from the field's
`min_size` or an explicit `:NN` width, both non-negative) and the `expand`
flag.  `use_display_format` works on a `GSList` of `format_item_t`; the
embedding uses a `List` of pairs `(field_len, expand)` for the mutable state,
seeded by the first loop of the function (which stops as soon as
`expand_top` reaches `MAX_EXPAND`, leaving later items with the
`g_new0`-initialised `field_len = 0`). -/

structure FormatItem where
  requested_field_len : Nat
  expand : Bool
deriving Repr, DecidableEq

def MAX_EXPAND : Nat := 4

/-- The seeding loop of `use_display_format` (panel.c:1880-1887):
`for (darr = home; darr != NULL && expand_top < MAX_EXPAND; ...)
 { fi->field_len = fi->requested_field_len; if (fi->expand) expand_top++; }`.
Returns the list of `(field_len, expand)` pairs together with the final
`expand_top`.  Items not reached by the loop keep `field_len = 0` (the
`g_new0` initialisation in `parse_display_format`). -/
def seedFields : List FormatItem → Nat → List (Int × Bool) × Nat
  | [], expand_top => ([], expand_top)
  | fi :: rest, expand_top =>
    if expand_top < MAX_EXPAND then
      let et := if fi.expand then expand_top + 1 else expand_top
      (((fi.requested_field_len : Int), fi.expand) :: (seedFields rest et).1,
        (seedFields rest et).2)
    else
      ((fi :: rest).map (fun fj => ((0 : Int), fj.expand)), expand_top)

/-- One pass of the shrink loop body (panel.c:1901-1910): walk all items; for
each, `if (dif != 0 && fi->field_len != 1) { fi->field_len--; dif--; }`.
Returns the updated items and the remaining `dif`. -/
def shrinkPass : List (Int × Bool) → Nat → List (Int × Bool) × Nat
  | [], dif => ([], dif)
  | (l, e) :: rest, dif =>
    if dif ≠ 0 ∧ l ≠ 1 then
      ((l - 1, e) :: (shrinkPass rest (dif - 1)).1, (shrinkPass rest (dif - 1)).2)
    else
      ((l, e) :: (shrinkPass rest dif).1, (shrinkPass rest dif).2)

theorem shrinkPass_snd_le (fs : List (Int × Bool)) (dif : Nat) :
    (shrinkPass fs dif).2 ≤ dif := by
  induction fs generalizing dif with
  | nil => simp [shrinkPass]
  | cons hd tl ih =>
    obtain ⟨l, e⟩ := hd
    simp only [shrinkPass]
    split
    · exact le_trans (ih (dif - 1)) (Nat.sub_le dif 1)
    · exact ih dif

/-- The outer shrink loop (panel.c:1897-1911):
`while (dif != 0 && pdif != dif) { pdif = dif; <one pass> }`.
The loop runs at most `dif` times (every pass that does not exit lowers
`dif` by at least one, see `shrinkPass_snd_le`), so it is written with a
structural fuel argument instantiated to the initial `dif` by `shrinkLoop`;
the fuel is never exhausted while `dif ≠ 0`. -/
def shrinkIter : Nat → List (Int × Bool) → Nat → List (Int × Bool)
  | 0, fs, _ => fs
  | fuel + 1, fs, dif =>
    if dif = 0 then fs
    else
      if (shrinkPass fs dif).2 = dif then (shrinkPass fs dif).1
      else shrinkIter fuel (shrinkPass fs dif).1 (shrinkPass fs dif).2

def shrinkLoop (fs : List (Int × Bool)) (dif : Nat) : List (Int × Bool) :=
  shrinkIter dif fs dif

/-- The expansion loop (panel.c:1924-1935): walk items while `i < expand_top`;
every expandable item gains `spaces`, and the first one (`i == 0`)
additionally gains the remainder `rem`. -/
def expandLoop : List (Int × Bool) → Nat → Nat → Nat → Nat → List (Int × Bool)
  | [], _, _, _, _ => []
  | (l, e) :: rest, spaces, rem, i, expand_top =>
    if i < expand_top then
      if e then
        (l + (spaces : Int) + (if i = 0 then (rem : Int) else 0), e) ::
          expandLoop rest spaces rem (i + 1) expand_top
      else
        (l, e) :: expandLoop rest spaces rem i expand_top
    else
      (l, e) :: rest

/-- The running sum of requested widths computed by `parse_display_format`
(panel.c:1842, `total_cols += darr->requested_field_len`). -/
def total_cols (items : List FormatItem) : Nat :=
  (items.map (·.requested_field_len)).sum

/-- `use_display_format` (panel.c:1851-1939), restricted to its numeric core:
given the parsed format items and the usable column budget, it returns the
final `field_len` of every item.  After the shrink loop the code sets
`total_cols = usable_columns`, so the expansion branch only runs when no
shrinking happened. -/
def use_display_format (items : List FormatItem) (usable_columns : Nat) : List Int :=
  if total_cols items > usable_columns then
    (shrinkLoop (seedFields items 0).1 (total_cols items - usable_columns)).map Prod.fst
  else if usable_columns > total_cols items ∧ (seedFields items 0).2 ≠ 0 then
    (expandLoop (seedFields items 0).1
      ((usable_columns - total_cols items) / (seedFields items 0).2)
      ((usable_columns - total_cols items) % (seedFields items 0).2)
      0 (seedFields items 0).2).map Prod.fst
  else
    (seedFields items 0).1.map Prod.fst

/-- The surplus distribution exactly as the claim states it: with `E`
expandable columns and surplus `S`, the first expandable column gains
`S/E + S%E`, every other expandable column gains `S/E`, non-expandable
columns keep their requested width.  (Spec-side definition, used to compare
against `use_display_format`.) -/
def claimExpandedWidths : List FormatItem → Nat → Nat → Bool → List Int
  | [], _, _, _ => []
  | fi :: rest, spaces, rem, isFirst =>
    (if fi.expand then
      ((fi.requested_field_len : Int) + spaces + (if isFirst then (rem : Int) else 0))
     else (fi.requested_field_len : Int)) ::
      claimExpandedWidths rest spaces rem (isFirst && !fi.expand)

example : use_display_format [⟨12, true⟩, ⟨7, false⟩] 30 = [23, 7] := by decide
example : use_display_format [⟨12, true⟩, ⟨7, false⟩] 10 = [7, 3] := by decide
example : use_display_format [⟨0, false⟩] 1 = [0] := by decide
example : use_display_format
    [⟨1, true⟩, ⟨1, true⟩, ⟨1, true⟩, ⟨1, true⟩, ⟨1, true⟩] 16 = [6, 3, 3, 3, 0] := by decide

def sumFst (fs : List (Int × Bool)) : Int := (fs.map Prod.fst).sum

theorem seedFields_length (items : List FormatItem) (et : Nat) :
    ((seedFields items et).1).length = items.length := by
  induction items generalizing et with
  | nil => simp [seedFields]
  | cons fi rest ih =>
    simp only [seedFields]
    split
    · simp [ih]
    · simp

theorem total_cols_cons (fi : FormatItem) (rest : List FormatItem) :
    total_cols (fi :: rest) = fi.requested_field_len + total_cols rest := by
  simp [total_cols]

theorem seedFields_sum_le (items : List FormatItem) (et : Nat) :
    sumFst (seedFields items et).1 ≤ ((total_cols items : Nat) : Int) := by
  induction items generalizing et with
  | nil => simp [seedFields, sumFst, total_cols]
  | cons fi rest ih =>
    simp only [seedFields, total_cols_cons]
    split
    · simp only [sumFst, List.map_cons, List.sum_cons]
      have := ih (if fi.expand then et + 1 else et)
      simp only [sumFst] at this
      push_cast
      linarith
    · simp only [sumFst, List.map_map]
      have h0 : ((fi :: rest).map ((fun x => x.1) ∘ fun fj => ((0 : Int), fj.expand))) =
          (fi :: rest).map (fun _ => (0 : Int)) := rfl
      rw [h0, List.map_const', List.sum_replicate, smul_zero]
      push_cast
      positivity

theorem shrinkPass_length (fs : List (Int × Bool)) (dif : Nat) :
    ((shrinkPass fs dif).1).length = fs.length := by
  induction fs generalizing dif with
  | nil => simp [shrinkPass]
  | cons hd tl ih =>
    obtain ⟨l, e⟩ := hd
    simp only [shrinkPass]
    split
    · simp [ih]
    · simp [ih]

theorem shrinkPass_sum (fs : List (Int × Bool)) (dif : Nat) :
    sumFst (shrinkPass fs dif).1 = sumFst fs + ((shrinkPass fs dif).2 : Int) - (dif : Int) := by
  induction fs generalizing dif with
  | nil => simp [shrinkPass]
  | cons hd tl ih =>
    obtain ⟨l, e⟩ := hd
    simp only [shrinkPass]
    split
    · rename_i hcond
      simp only [sumFst, List.map_cons, List.sum_cons] at *
      rw [ih (dif - 1)]
      have : (1 : Int) ≤ (dif : Int) := by
        exact_mod_cast Nat.one_le_iff_ne_zero.mpr hcond.1
      push_cast [Nat.cast_sub (Nat.one_le_iff_ne_zero.mpr hcond.1)]
      ring
    · simp only [sumFst, List.map_cons, List.sum_cons] at *
      rw [ih dif]
      ring

theorem shrinkPass_stuck (fs : List (Int × Bool)) (dif : Nat)
    (hstay : (shrinkPass fs dif).2 = dif) (hdif : dif ≠ 0) :
    (shrinkPass fs dif).1 = fs ∧ ∀ x ∈ fs, x.1 = 1 := by
  induction fs generalizing dif with
  | nil => simp [shrinkPass]
  | cons hd tl ih =>
    obtain ⟨l, e⟩ := hd
    by_cases hcond : dif ≠ 0 ∧ l ≠ 1
    · exfalso
      simp only [shrinkPass, if_pos hcond] at hstay
      have hle := shrinkPass_snd_le tl (dif - 1)
      omega
    · have hl : l = 1 := by
        by_contra hne
        exact hcond ⟨hdif, hne⟩
      simp only [shrinkPass, if_neg hcond] at hstay ⊢
      obtain ⟨h1, h2⟩ := ih dif hstay hdif
      refine ⟨by simp [h1], ?_⟩
      intro x hx
      rcases List.mem_cons.mp hx with h | h
      · rw [h]; exact hl
      · exact h2 x h

theorem sumFst_all_one (fs : List (Int × Bool)) (h : ∀ x ∈ fs, x.1 = 1) :
    sumFst fs = fs.length := by
  induction fs with
  | nil => simp [sumFst]
  | cons hd tl ih =>
    have h2 := ih (fun x hx => h x (List.mem_cons_of_mem hd hx))
    simp only [sumFst, List.map_cons, List.sum_cons, List.length_cons] at h2 ⊢
    rw [h hd (List.mem_cons_self hd tl), h2]
    push_cast
    ring

theorem shrinkIter_length (fuel : Nat) (fs : List (Int × Bool)) (dif : Nat) :
    (shrinkIter fuel fs dif).length = fs.length := by
  induction fuel generalizing fs dif with
  | zero => simp [shrinkIter]
  | succ n ih =>
    simp only [shrinkIter]
    split
    · rfl
    · split
      · exact shrinkPass_length fs dif
      · rw [ih, shrinkPass_length]

theorem shrinkIter_sum (fuel : Nat) (fs : List (Int × Bool)) (dif : Nat) (usable : Nat)
    (hfuel : dif ≤ fuel) (hlen : fs.length ≤ usable)
    (hsum : sumFst fs ≤ (usable : Int) + (dif : Int)) :
    sumFst (shrinkIter fuel fs dif) ≤ (usable : Int) := by
  induction fuel generalizing fs dif with
  | zero =>
    have : dif = 0 := Nat.le_zero.mp hfuel
    subst this
    simpa [shrinkIter] using hsum
  | succ n ih =>
    simp only [shrinkIter]
    split
    · rename_i h0
      subst h0
      simpa using hsum
    · rename_i h0
      split
      · rename_i hstay
        obtain ⟨heq, hone⟩ := shrinkPass_stuck fs dif hstay h0
        rw [heq, sumFst_all_one fs hone]
        exact_mod_cast hlen
      · rename_i hstay
        have hlt : (shrinkPass fs dif).2 < dif :=
          lt_of_le_of_ne (shrinkPass_snd_le fs dif) hstay
        refine ih (shrinkPass fs dif).1 (shrinkPass fs dif).2 (by omega)
          (by rw [shrinkPass_length]; exact hlen) ?_
        rw [shrinkPass_sum]
        omega

theorem expandLoop_sum (spaces rem et : Nat) :
    ∀ (fs : List (Int × Bool)) (i : Nat), i ≤ et →
    sumFst (expandLoop fs spaces rem i et) ≤
      sumFst fs + ((et : Int) - (i : Int)) * (spaces : Int) +
        (if i = 0 then (rem : Int) else 0) := by
  intro fs
  induction fs with
  | nil =>
    intro i hi
    simp only [expandLoop, sumFst, List.map_nil, List.sum_nil]
    have h1 : (0 : Int) ≤ ((et : Int) - i) * spaces := by
      apply mul_nonneg <;> omega
    split <;> omega
  | cons hd tl ih =>
    intro i hi
    obtain ⟨l, e⟩ := hd
    simp only [expandLoop]
    split
    · rename_i hilt
      split
      · have htl := ih (i + 1) (by omega)
        simp only [Nat.succ_ne_zero, if_false, add_zero] at htl
        have hX : ((et : Int) - i) * spaces =
            ((et : Int) - (i + 1 : Nat)) * spaces + spaces := by
          push_cast
          ring
        simp only [sumFst, List.map_cons, List.sum_cons] at htl ⊢
        rw [hX]
        split <;> linarith
      · have htl := ih i hi
        simp only [sumFst, List.map_cons, List.sum_cons] at htl ⊢
        split at htl <;> split <;> linarith
    · rename_i hige
      simp only [sumFst, List.map_cons, List.sum_cons]
      have h1 : (0 : Int) ≤ ((et : Int) - i) * spaces := by
        apply mul_nonneg <;> omega
      split <;> omega

theorem seedFields_complete (items : List FormatItem) (et : Nat)
    (h : et + items.countP (·.expand) < MAX_EXPAND) :
    (seedFields items et).1 =
        items.map (fun fi => ((fi.requested_field_len : Int), fi.expand)) ∧
      (seedFields items et).2 = et + items.countP (·.expand) := by
  induction items generalizing et with
  | nil => simp [seedFields]
  | cons fi rest ih =>
    simp only [List.countP_cons] at h
    have hlt : et < MAX_EXPAND := by
      by_cases hfe : fi.expand = true <;> simp [hfe] at h <;> omega
    by_cases hfe : fi.expand = true
    · have ih2 := ih (et + 1) (by simp [hfe] at h; omega)
      constructor
      · simp [seedFields, if_pos hlt, hfe, ih2.1]
      · simp [seedFields, if_pos hlt, hfe, ih2.2]
        omega
    · have hf : fi.expand = false := by
        cases hx : fi.expand
        · rfl
        · exact absurd hx hfe
      have ih2 := ih et (by simp [hfe] at h; omega)
      constructor
      · simp [seedFields, if_pos hlt, hf, ih2.1]
      · simp [seedFields, if_pos hlt, hf, ih2.2]

theorem shrinkPass_ge_one (fs : List (Int × Bool)) (dif : Nat)
    (h : ∀ x ∈ fs, 1 ≤ x.1) : ∀ x ∈ (shrinkPass fs dif).1, 1 ≤ x.1 := by
  induction fs generalizing dif with
  | nil => simp [shrinkPass]
  | cons hd tl ih =>
    obtain ⟨l, e⟩ := hd
    have hhd : 1 ≤ l := h (l, e) (List.mem_cons_self _ _)
    have htl := fun x hx => h x (List.mem_cons_of_mem _ hx)
    simp only [shrinkPass]
    split
    · rename_i hc
      intro x hx
      rcases List.mem_cons.mp hx with hx1 | hx2
      · rw [hx1]
        simp only
        have : l ≠ 1 := hc.2
        omega
      · exact ih (dif - 1) htl x hx2
    · intro x hx
      rcases List.mem_cons.mp hx with hx1 | hx2
      · rw [hx1]; exact hhd
      · exact ih dif htl x hx2

theorem shrinkIter_ge_one (fuel : Nat) (fs : List (Int × Bool)) (dif : Nat)
    (h : ∀ x ∈ fs, 1 ≤ x.1) : ∀ x ∈ shrinkIter fuel fs dif, 1 ≤ x.1 := by
  induction fuel generalizing fs dif with
  | zero => simpa [shrinkIter] using h
  | succ n ih =>
    simp only [shrinkIter]
    split
    · exact h
    · split
      · exact shrinkPass_ge_one fs dif h
      · exact ih _ _ (shrinkPass_ge_one fs dif h)

theorem expandLoop_ge_one (spaces rem et : Nat) :
    ∀ (fs : List (Int × Bool)) (i : Nat), (∀ x ∈ fs, 1 ≤ x.1) →
    ∀ x ∈ expandLoop fs spaces rem i et, 1 ≤ x.1 := by
  intro fs
  induction fs with
  | nil => intro i h; simp [expandLoop]
  | cons hd tl ih =>
    intro i h
    obtain ⟨l, e⟩ := hd
    have hhd : 1 ≤ l := h (l, e) (List.mem_cons_self _ _)
    have htl := fun x hx => h x (List.mem_cons_of_mem _ hx)
    simp only [expandLoop]
    split
    · split
      · intro x hx
        rcases List.mem_cons.mp hx with hx1 | hx2
        · rw [hx1]
          simp only
          have h1 : (0 : Int) ≤ (spaces : Int) := by omega
          split <;> omega
        · exact ih (i + 1) htl x hx2
      · intro x hx
        rcases List.mem_cons.mp hx with hx1 | hx2
        · rw [hx1]; exact hhd
        · exact ih i htl x hx2
    · exact h

/-- **C1 (amended).** For every compiled column set and every usable width at
least the number of columns, the final widths of `use_display_format` sum to
at most the usable width.  Moreover every final width is at least 1
*provided* every requested width is at least 1 and fewer than `MAX_EXPAND`
(4) columns are expandable — without those extra conditions the width part
fails (see the counterexample): an explicit `:0` width yields a width-0
column, and once the seeding loop has counted `MAX_EXPAND` expandable
columns it stops, leaving every later column with its `g_new0` width 0. -/
theorem use_display_format_sum_le_and_pos (items : List FormatItem) (usable : Nat)
    (hn : items.length ≤ usable) :
    (use_display_format items usable).sum ≤ (usable : Int) ∧
      ((∀ fi ∈ items, 1 ≤ fi.requested_field_len) →
        items.countP (·.expand) < MAX_EXPAND →
        ∀ w ∈ use_display_format items usable, 1 ≤ w) := by
  have hseedsum : sumFst (seedFields items 0).1 ≤ ((total_cols items : Nat) : Int) :=
    seedFields_sum_le items 0
  have hseedlen : ((seedFields items 0).1).length = items.length := seedFields_length items 0
  constructor
  · -- sum of final widths is at most the usable width
    simp only [use_display_format]
    split
    · rename_i hgt
      show sumFst (shrinkLoop (seedFields items 0).1 (total_cols items - usable)) ≤ _
      refine shrinkIter_sum _ _ _ usable le_rfl (by omega) ?_
      have hc : ((total_cols items : Nat) : Int) =
          (usable : Int) + ((total_cols items - usable : Nat) : Int) := by omega
      linarith
    · split
      · rename_i hng hexp
        obtain ⟨hgt, het⟩ := hexp
        set et := (seedFields items 0).2 with hetdef
        set S := usable - total_cols items with hSdef
        show sumFst (expandLoop (seedFields items 0).1 (S / et) (S % et) 0 et) ≤ _
        have hle := expandLoop_sum (S / et) (S % et) et (seedFields items 0).1 0 (Nat.zero_le et)
        norm_num at hle
        have hdm : (et : Int) * ((S : Int) / (et : Int)) + (S : Int) % (et : Int) = (S : Int) :=
          Int.ediv_add_emod (S : Int) (et : Int)
        have hS : (S : Int) = (usable : Int) - ((total_cols items : Nat) : Int) := by omega
        linarith
      · rename_i hng hnexp
        show sumFst (seedFields items 0).1 ≤ _
        have hc : ((total_cols items : Nat) : Int) ≤ (usable : Int) := by omega
        linarith
  · -- widths are at least 1 under the extra hypotheses
    intro hreq hcnt
    obtain ⟨hs1, _⟩ := seedFields_complete items 0 (by omega)
    have hpos : ∀ x ∈ (seedFields items 0).1, 1 ≤ x.1 := by
      rw [hs1]
      intro x hx
      obtain ⟨fi, hfi, rfl⟩ := List.mem_map.mp hx
      simpa using hreq fi hfi
    simp only [use_display_format]
    split
    · intro w hw
      obtain ⟨x, hx, rfl⟩ := List.mem_map.mp hw
      exact shrinkIter_ge_one _ _ _ hpos x hx
    · split
      · intro w hw
        obtain ⟨x, hx, rfl⟩ := List.mem_map.mp hw
        exact expandLoop_ge_one _ _ _ _ _ hpos x hx
      · intro w hw
        obtain ⟨x, hx, rfl⟩ := List.mem_map.mp hw
        exact hpos x hx

/-- **C1 (counterexample).** The claim as stated — for *every* compiled
column set, sum ≤ usable *and* every width ≥ 1 — fails on the code: the
format item `name:0` compiles to requested width 0 (`atoi` of `0` at
panel.c:1811), and with one column and usable width 1 (≥ the number of
columns) the solver outputs width 0. -/
theorem use_display_format_width_zero_cx :
    ([({ requested_field_len := 0, expand := false } : FormatItem)].length ≤ 1) ∧
      ¬ (((use_display_format [⟨0, false⟩] 1).sum ≤ (1 : Int)) ∧
          ∀ w ∈ use_display_format [⟨0, false⟩] 1, 1 ≤ w) := by
  decide

/-- Witness for `use_display_format_sum_le_and_pos` at a concrete input. -/
theorem use_display_format_sum_le_and_pos_witness :
    ([({ requested_field_len := 12, expand := true } : FormatItem),
      ({ requested_field_len := 7, expand := false } : FormatItem)].length ≤ 30) ∧
      ((use_display_format [⟨12, true⟩, ⟨7, false⟩] 30).sum ≤ (30 : Int) ∧
        ((∀ fi ∈ [({ requested_field_len := 12, expand := true } : FormatItem), ⟨7, false⟩],
            1 ≤ fi.requested_field_len) →
          ([({ requested_field_len := 12, expand := true } : FormatItem),
            ⟨7, false⟩].countP (·.expand) < MAX_EXPAND) →
          ∀ w ∈ use_display_format [⟨12, true⟩, ⟨7, false⟩] 30, 1 ≤ w)) :=
  ⟨by decide, use_display_format_sum_le_and_pos [⟨12, true⟩, ⟨7, false⟩] 30 (by decide)⟩

theorem claimExpandedWidths_no_expand (spaces rem : Nat) :
    ∀ (rest : List FormatItem) (b : Bool), rest.countP (·.expand) = 0 →
    claimExpandedWidths rest spaces rem b =
      rest.map (fun fi => (fi.requested_field_len : Int)) := by
  intro rest
  induction rest with
  | nil => intro b _; simp [claimExpandedWidths]
  | cons fi tl ih =>
    intro b h
    simp only [List.countP_cons] at h
    have hf : fi.expand = false := by
      cases hx : fi.expand
      · rfl
      · rw [hx] at h; simp at h
    have htl : tl.countP (·.expand) = 0 := by
      rw [hf] at h
      simpa using h
    simp [claimExpandedWidths, hf, ih _ htl]

theorem expandLoop_spec (spaces rem E : Nat) :
    ∀ (rest : List FormatItem) (i : Nat), i + rest.countP (·.expand) = E →
    ((expandLoop (rest.map (fun fi => ((fi.requested_field_len : Int), fi.expand)))
        spaces rem i E).map Prod.fst) =
      claimExpandedWidths rest spaces rem (i == 0) := by
  intro rest
  induction rest with
  | nil => intro i _; simp [expandLoop, claimExpandedWidths]
  | cons fi tl ih =>
    intro i hE
    simp only [List.countP_cons] at hE
    by_cases hiE : i < E
    · simp only [List.map_cons, expandLoop, if_pos hiE]
      cases hf : fi.expand with
      | true =>
        have htl := ih (i + 1) (by simp [hf] at hE; omega)
        simp only [List.map_cons, claimExpandedWidths, hf, if_true]
        congr 1
        · simp [beq_iff_eq]
        · rw [htl]
          congr 1
          simp
      | false =>
        have htl := ih i (by simp [hf] at hE; omega)
        simp only [List.map_cons, claimExpandedWidths, hf, Bool.false_eq_true, if_false]
        rw [htl]
        congr 1
        simp
    · have hieq : i = E := by omega
      have hcnt : fi.expand = false ∧ tl.countP (·.expand) = 0 := by
        cases hx : fi.expand
        · simp [hx] at hE; exact ⟨rfl, by omega⟩
        · simp [hx] at hE; omega
      simp only [List.map_cons, expandLoop, if_neg hiE]
      rw [claimExpandedWidths_no_expand spaces rem _ _
        (by simp [List.countP_cons, hcnt.1, hcnt.2])]
      simp [List.map_map]

/-- **C2 (amended).** When the usable width exceeds the requested total by
`S` and there are `E` expandable columns with `1 ≤ E < MAX_EXPAND` (4), the
solver adds `S/E + S%E` to the first expandable column and `S/E` to every
other expandable column, leaving non-expandable columns unchanged.  The
bound `E < 4` is forced by the code: the seeding loop caps `expand_top` at
`MAX_EXPAND`, so with four or more expandable columns the surplus divisor is
at most 4 and columns after the fourth expandable one are never seeded (see
the counterexample). -/
theorem use_display_format_expand_fair (items : List FormatItem) (usable : Nat)
    (hE1 : 1 ≤ items.countP (·.expand)) (hE4 : items.countP (·.expand) < MAX_EXPAND)
    (hlt : total_cols items < usable) :
    use_display_format items usable =
      claimExpandedWidths items
        ((usable - total_cols items) / items.countP (·.expand))
        ((usable - total_cols items) % items.countP (·.expand)) true := by
  obtain ⟨hs1, hs2⟩ := seedFields_complete items 0 (by omega)
  rw [Nat.zero_add] at hs2
  simp only [use_display_format, if_neg (by omega : ¬ total_cols items > usable)]
  rw [if_pos ⟨hlt, by rw [hs2]; omega⟩]
  rw [hs2, hs1]
  exact expandLoop_spec _ _ _ items 0 (by omega)

/-- **C2 (counterexample).** With five expandable columns of requested width
1 and usable width 16 (surplus `S = 11`, `E = 5`), the claim predicts widths
`[4, 3, 3, 3, 3]` (first gains `11/5 + 11%5 = 3`, others gain `2`), but the
code produces `[6, 3, 3, 3, 0]`: the seeding loop stops at `MAX_EXPAND = 4`
expandable columns, so the divisor is 4, the fifth column is never seeded
(width 0), and the first column gains `11/4 + 11%4 = 5`. -/
theorem use_display_format_expand_fair_cx :
    use_display_format [⟨1, true⟩, ⟨1, true⟩, ⟨1, true⟩, ⟨1, true⟩, ⟨1, true⟩] 16 =
        [6, 3, 3, 3, 0] ∧
      use_display_format [⟨1, true⟩, ⟨1, true⟩, ⟨1, true⟩, ⟨1, true⟩, ⟨1, true⟩] 16 ≠
        claimExpandedWidths [⟨1, true⟩, ⟨1, true⟩, ⟨1, true⟩, ⟨1, true⟩, ⟨1, true⟩]
          ((16 - 5) / 5) ((16 - 5) % 5) true := by
  decide

/-- Witness for `use_display_format_expand_fair` at a concrete input. -/
theorem use_display_format_expand_fair_witness :
    (1 ≤ (([⟨12, true⟩, ⟨7, false⟩] : List FormatItem).countP (·.expand))) ∧
      (([⟨12, true⟩, ⟨7, false⟩] : List FormatItem).countP (·.expand) < MAX_EXPAND) ∧
      (total_cols [⟨12, true⟩, ⟨7, false⟩] < 30) ∧
      use_display_format [⟨12, true⟩, ⟨7, false⟩] 30 =
        claimExpandedWidths [⟨12, true⟩, ⟨7, false⟩]
          ((30 - total_cols [⟨12, true⟩, ⟨7, false⟩]) /
            ([⟨12, true⟩, ⟨7, false⟩] : List FormatItem).countP (·.expand))
          ((30 - total_cols [⟨12, true⟩, ⟨7, false⟩]) %
            ([⟨12, true⟩, ⟨7, false⟩] : List FormatItem).countP (·.expand)) true :=
  ⟨by decide, by decide, by decide,
    use_display_format_expand_fair [⟨12, true⟩, ⟨7, false⟩] 30
      (by decide) (by decide) (by decide)⟩

/-! ## Navigation controller (panel.c:1367-1411, 2135-2498)

The navigation state is the pair `{selected, top_file}` of C `int`s.  The
geometry parameters are `dir.len` (`panel->dir.len`), `panel_lines` and
`panel->list_cols`; `panel_items = panel_lines * list_cols`
(panel.c:790-793).  Every mutating navigation command either returns early
at a boundary or ends in `select_item` (panel.c:4592), which runs
`adjust_top_file`.  The flags mirror `panels_options.scroll_pages`,
`panels_options.scroll_center` and `panels_options.torben_fj_mode`.
C's truncating `/` on `int` is `Int.tdiv`. -/

structure NavParams where
  len : Int
  lines : Int
  list_cols : Int
  scroll_pages : Bool
  scroll_center : Bool
  torben_fj_mode : Bool
deriving Repr, DecidableEq

/-- `panel_items` (panel.c:790): `panel_lines (p) * p->list_cols`. -/
def NavParams.items (P : NavParams) : Int := P.lines * P.list_cols

structure NavState where
  selected : Int
  top_file : Int
deriving Repr, DecidableEq

/-- glib's `CLAMP (x, low, high)`:
`(((x) > (high)) ? (high) : (((x) < (low)) ? (low) : (x)))`. -/
def CLAMP (x low high : Int) : Int :=
  if x > high then high else if x < low then low else x

/-- `adjust_top_file` (panel.c:1367-1411). -/
def adjust_top_file (P : NavParams) (s : NavState) : NavState :=
  let selected := CLAMP s.selected 0 (P.len - 1)
  let items := P.items
  if P.len ≤ items then
    ⟨selected, 0⟩
  else
    let top1 := if s.top_file < 0 then 0 else s.top_file
    let top2 := if top1 < selected - items + 1 then selected - items + 1 else top1
    let top3 := if top2 > P.len - items then P.len - items else top2
    let top4 := if top3 > selected then selected else top3
    ⟨selected, top4⟩

/-- `select_item` (panel.c:4592): readjusts the viewport via
`adjust_top_file` (the hook execution and dirty flag do not touch the
navigation state). -/
def select_item (P : NavParams) (s : NavState) : NavState := adjust_top_file P s

/-- `panel_selected_at_half` (panel.c:2118-2131). -/
def panel_selected_at_half (P : NavParams) (s : NavState) : Int :=
  let top := if P.list_cols > 1
    then s.top_file + P.lines * (Int.tdiv (s.selected - s.top_file) P.lines)
    else s.top_file
  s.selected - top - Int.tdiv P.lines 2

/-- `move_down` (panel.c:2135-2164). -/
def move_down (P : NavParams) (s : NavState) : NavState :=
  if s.selected + 1 = P.len then s
  else
    let s1 : NavState := ⟨s.selected + 1, s.top_file⟩
    let items := P.items
    let s2 : NavState :=
      if P.scroll_pages ∧ s1.selected - s1.top_file = items then
        let t := s1.top_file + Int.tdiv items 2
        ⟨s1.selected, if t > P.len - items then P.len - items else t⟩
      else if P.scroll_center ∧ panel_selected_at_half P s1 > 0 then
        let t := s1.top_file + 1
        ⟨s1.selected, if t > P.len - items then P.len - items else t⟩
      else s1
    select_item P s2

/-- `move_up` (panel.c:2168-2193). -/
def move_up (P : NavParams) (s : NavState) : NavState :=
  if s.selected = 0 then s
  else
    let s1 : NavState := ⟨s.selected - 1, s.top_file⟩
    let s2 : NavState :=
      if P.scroll_pages ∧ s1.selected < s1.top_file then
        let t := s1.top_file - Int.tdiv P.items 2
        ⟨s1.selected, if t < 0 then 0 else t⟩
      else if P.scroll_center ∧ panel_selected_at_half P s1 < 0 then
        let t := s1.top_file - 1
        ⟨s1.selected, if t < 0 then 0 else t⟩
      else s1
    select_item P s2

/-- `prev_page` (panel.c:2267-2287). -/
def prev_page (P : NavParams) (s : NavState) : NavState :=
  if s.selected = 0 ∧ s.top_file = 0 then s
  else
    let items0 := P.items
    let items := if s.top_file < items0 then s.top_file else items0
    let sel := if items = 0 then 0 else s.selected - items
    select_item P ⟨sel, s.top_file - items⟩

/-- `next_page` (panel.c:2332-2354). -/
def next_page (P : NavParams) (s : NavState) : NavState :=
  if s.selected = P.len - 1 then s
  else
    let items0 := P.items
    let items1 := if s.top_file > P.len - 2 * items0 then P.len - items0 - s.top_file else items0
    let items2 := if s.top_file + items1 < 0 then - s.top_file else items1
    let sel := if items2 = 0 then P.len - 1 else s.selected + items2
    select_item P ⟨sel, s.top_file + items2⟩

/-- `goto_top_file` (panel.c:2373-2379). -/
def goto_top_file (P : NavParams) (s : NavState) : NavState :=
  select_item P ⟨s.top_file, s.top_file⟩

/-- `goto_middle_file` (panel.c:2383-2389). -/
def goto_middle_file (P : NavParams) (s : NavState) : NavState :=
  select_item P ⟨s.top_file + Int.tdiv P.items 2, s.top_file⟩

/-- `goto_bottom_file` (panel.c:2393-2399). -/
def goto_bottom_file (P : NavParams) (s : NavState) : NavState :=
  select_item P ⟨s.top_file + P.items - 1, s.top_file⟩

/-- `move_home` (panel.c:2403-2434). -/
def move_home (P : NavParams) (s : NavState) : NavState :=
  if s.selected = 0 then s
  else if P.torben_fj_mode ∧ s.selected > s.top_file + Int.tdiv P.items 2 then
    goto_middle_file P s
  else if P.torben_fj_mode ∧ s.selected ≠ s.top_file then
    goto_top_file P s
  else
    select_item P ⟨0, 0⟩

/-- `move_end` (panel.c:2438-2468). -/
def move_end (P : NavParams) (s : NavState) : NavState :=
  if s.selected = P.len - 1 then s
  else if P.torben_fj_mode ∧ s.selected < s.top_file + Int.tdiv P.items 2 then
    goto_middle_file P s
  else if P.torben_fj_mode ∧ s.selected ≠ s.top_file + P.items - 1 then
    goto_bottom_file P s
  else
    select_item P ⟨P.len - 1, s.top_file⟩

/-- The step/page/jump command set the navigation claims quantify over. -/
inductive NavOp where
  | moveUp | moveDown | prevPage | nextPage
  | gotoTop | gotoMiddle | gotoBottom | moveHome | moveEnd
deriving Repr, DecidableEq

def navStep (P : NavParams) (s : NavState) : NavOp → NavState
  | .moveUp => move_up P s
  | .moveDown => move_down P s
  | .prevPage => prev_page P s
  | .nextPage => next_page P s
  | .gotoTop => goto_top_file P s
  | .gotoMiddle => goto_middle_file P s
  | .gotoBottom => goto_bottom_file P s
  | .moveHome => move_home P s
  | .moveEnd => move_end P s

/-- The §3 navigation invariant: `0 <= selected < len` and
`top_file <= selected < top_file + items`. -/
def NavInv (P : NavParams) (s : NavState) : Prop :=
  0 ≤ s.selected ∧ s.selected < P.len ∧
    s.top_file ≤ s.selected ∧ s.selected < s.top_file + P.items

instance (P : NavParams) (s : NavState) : Decidable (NavInv P s) := by
  unfold NavInv
  infer_instance

/-- `adjust_top_file` establishes the invariant from *any* incoming state,
as long as the panel has at least one entry and at least one visible row. -/
theorem adjust_top_file_inv (P : NavParams) (s : NavState)
    (hlen : 1 ≤ P.len) (hitems : 1 ≤ P.items) :
    NavInv P (adjust_top_file P s) := by
  simp only [adjust_top_file, CLAMP, NavInv]
  split_ifs <;> simp_all <;> omega

theorem navStep_inv (P : NavParams) (s : NavState) (op : NavOp)
    (hlen : 1 ≤ P.len) (hitems : 1 ≤ P.items) (hs : NavInv P s) :
    NavInv P (navStep P s op) := by
  cases op <;>
    simp only [navStep, move_up, move_down, prev_page, next_page, goto_top_file,
      goto_middle_file, goto_bottom_file, move_home, move_end, select_item] <;>
    first
      | exact adjust_top_file_inv P _ hlen hitems
      | (split_ifs <;>
          first
            | exact hs
            | exact adjust_top_file_inv P _ hlen hitems)

/-- **C3 (amended).** For every sequence of step/page/jump operations on a
panel with at least one entry, *at least one visible row*
(`items_per_page ≥ 1`) and a starting state satisfying the invariant, the
invariant `0 ≤ selected < len ∧ top ≤ selected < top + items_per_page`
holds after every operation (a prefix of a sequence is itself a sequence,
so the `foldl` form covers every intermediate state).  The extra
`items_per_page ≥ 1` condition is forced: with zero visible rows the window
part of the invariant is unsatisfiable (see the counterexample). -/
theorem nav_ops_keep_invariant (P : NavParams) (hlen : 1 ≤ P.len)
    (hitems : 1 ≤ P.items) (s : NavState) (hs : NavInv P s) (ops : List NavOp) :
    NavInv P (ops.foldl (navStep P) s) := by
  induction ops generalizing s with
  | nil => exact hs
  | cons op rest ih =>
    exact ih (navStep P s op) (navStep_inv P s op hlen hitems hs)

/-- **C3 (counterexample).** On a panel with one entry but zero visible rows
(`panel_lines = 0`, e.g. a 3-line widget, so `items_per_page = 0`), starting
from the panel-creation state `(selected, top_file) = (0, 0)`, the claimed
invariant is already violated after a single `move_down`:
`selected < top_file + items_per_page` is false because `items_per_page = 0`. -/
theorem nav_zero_items_cx :
    (1 : Int) ≤ (NavParams.mk 1 0 1 false false false).len ∧
      ¬ NavInv ⟨1, 0, 1, false, false, false⟩
        ([NavOp.moveDown].foldl (navStep ⟨1, 0, 1, false, false, false⟩) ⟨0, 0⟩) := by
  decide

/-- Witness for `nav_ops_keep_invariant` at a concrete input. -/
theorem nav_ops_keep_invariant_witness :
    (1 : Int) ≤ (NavParams.mk 3 2 1 false false false).len ∧
      (1 : Int) ≤ (NavParams.mk 3 2 1 false false false).items ∧
      NavInv ⟨3, 2, 1, false, false, false⟩ ⟨0, 0⟩ ∧
      NavInv ⟨3, 2, 1, false, false, false⟩
        ([NavOp.moveDown, NavOp.nextPage, NavOp.moveHome].foldl
          (navStep ⟨3, 2, 1, false, false, false⟩) ⟨0, 0⟩) :=
  ⟨by decide, by decide, by decide,
    nav_ops_keep_invariant ⟨3, 2, 1, false, false, false⟩ (by decide) (by decide)
      ⟨0, 0⟩ (by decide) [NavOp.moveDown, NavOp.nextPage, NavOp.moveHome]⟩

/-- **C10 (confirmed).** Whenever the panel's entry count is at most the
items per page, `select_item` (hence `adjust_top_file`, first branch,
panel.c:1382-1386) pins `top_file` to exactly 0. -/
theorem select_item_fits_top_zero (P : NavParams) (s : NavState)
    (h : P.len ≤ P.items) : (select_item P s).top_file = 0 := by
  simp [select_item, adjust_top_file, h]

/-- Witness for `select_item_fits_top_zero` at a concrete input. -/
theorem select_item_fits_top_zero_witness :
    (NavParams.mk 3 4 1 false false false).len ≤ (NavParams.mk 3 4 1 false false false).items ∧
      (select_item ⟨3, 4, 1, false, false, false⟩ ⟨2, 7⟩).top_file = 0 :=
  ⟨by decide, select_item_fits_top_zero ⟨3, 4, 1, false, false, false⟩ ⟨2, 7⟩ (by decide)⟩

/-! ## Marking (panel.c:4603-4713)

A directory entry carries its name, the marked flag, whether it is a
directory, whether its recursive size has been computed, and its size.
`panel->marked`/`panel->dirs_marked` are C `int`s, `panel->total` is a
`uintmax_t` (arithmetic modulo `2^64`).  `DIR_IS_DOTDOT (fname)` (from
`dir.h`) tests `fname[0] == '.' && fname[1] == '.' && fname[2] == '\0'`,
i.e. the name is exactly `".."`.  Out-of-range indices are undefined
behaviour in C; the embedding makes them no-ops. -/

structure FileEntry where
  fname : String
  marked : Bool
  isDir : Bool
  dir_size_computed : Bool
  size : Nat
deriving Repr, DecidableEq

structure MarkPanel where
  list : List FileEntry
  marked : Int
  dirs_marked : Int
  total : Nat
deriving Repr, DecidableEq

def UINTMAX_MOD : Nat := 2 ^ 64

def DIR_IS_DOTDOT (s : String) : Bool := s == ".."

/-- `file_mark` (panel.c:4705-4713): the raw flag setter; it only touches
the entry's flag (and the dirty bit, not modelled). -/
def file_mark (p : MarkPanel) (idx : Nat) (val : Bool) : MarkPanel :=
  match p.list.get? idx with
  | none => p
  | some fe =>
    if fe.marked ≠ val then
      { p with list := p.list.set idx { fe with marked := val } }
    else p

/-- `do_file_mark` (panel.c:4646-4685): returns immediately when the flag
already has the requested value or the entry is the dotdot entry; otherwise
sets the flag through `file_mark` and updates the summary counters
(directory sizes only count when `dir_size_computed`). -/
def do_file_mark (p : MarkPanel) (idx : Nat) (mark : Bool) : MarkPanel :=
  match p.list.get? idx with
  | none => p
  | some fe =>
    if fe.marked = mark then p
    else if DIR_IS_DOTDOT fe.fname then p
    else
      let p1 := file_mark p idx mark
      if mark then
        { p1 with
          marked := p1.marked + 1
          dirs_marked := if fe.isDir then p1.dirs_marked + 1 else p1.dirs_marked
          total :=
            if fe.isDir then
              (if fe.dir_size_computed then (p1.total + fe.size) % UINTMAX_MOD else p1.total)
            else (p1.total + fe.size) % UINTMAX_MOD }
      else
        { p1 with
          marked := p1.marked - 1
          dirs_marked := if fe.isDir then p1.dirs_marked - 1 else p1.dirs_marked
          total :=
            if fe.isDir then
              (if fe.dir_size_computed then
                (p1.total + UINTMAX_MOD - fe.size % UINTMAX_MOD) % UINTMAX_MOD
               else p1.total)
            else (p1.total + UINTMAX_MOD - fe.size % UINTMAX_MOD) % UINTMAX_MOD }

/-- `unmark_files` (panel.c:4603-4617). -/
def unmark_files (p : MarkPanel) : MarkPanel :=
  if p.marked ≠ 0 then
    let p2 := (List.range p.list.length).foldl (fun q i => file_mark q i false) p
    { p2 with dirs_marked := 0, marked := 0, total := 0 }
  else p

/-- The body of the `recalculate_panel_summary` loop (panel.c:4632-4640):
if entry `i` is flagged, clear the flag in place and re-mark it through
`do_file_mark` (which then cannot return early). -/
def recalcStep (q : MarkPanel) (i : Nat) : MarkPanel :=
  match q.list.get? i with
  | none => q
  | some fe =>
    if fe.marked then
      do_file_mark { q with list := q.list.set i { fe with marked := false } } i true
    else q

/-- `recalculate_panel_summary` (panel.c:4623-4641): resets the counters and
re-marks every flagged entry through `do_file_mark`. -/
def recalculate_panel_summary (p : MarkPanel) : MarkPanel :=
  (List.range p.list.length).foldl recalcStep
    { p with marked := 0, dirs_marked := 0, total := 0 }

/-- The marking operations of the claim, minus the raw `file_mark` setter
with value 1 (see the counterexample): `file_mark` only appears in its
clearing direction, as used by `unmark_files`. -/
inductive MarkOp where
  | doFileMark (idx : Nat) (mark : Bool)
  | fileMarkClear (idx : Nat)
  | unmarkAll
  | recalcSummary
deriving Repr, DecidableEq

def markStep (p : MarkPanel) : MarkOp → MarkPanel
  | .doFileMark idx mark => do_file_mark p idx mark
  | .fileMarkClear idx => file_mark p idx false
  | .unmarkAll => unmark_files p
  | .recalcSummary => recalculate_panel_summary p

/-- The dotdot entry is never flagged. -/
def DotdotUnmarked (p : MarkPanel) : Prop :=
  ∀ fe ∈ p.list, DIR_IS_DOTDOT fe.fname → fe.marked = false

instance (p : MarkPanel) : Decidable (DotdotUnmarked p) := by
  unfold DotdotUnmarked
  infer_instance

theorem file_mark_clear_dotdot (p : MarkPanel) (idx : Nat) (hp : DotdotUnmarked p) :
    DotdotUnmarked (file_mark p idx false) := by
  unfold file_mark
  cases hg : p.list.get? idx with
  | none => simp only [hg]; exact hp
  | some fe =>
    simp only [hg]
    by_cases hc : fe.marked ≠ false
    · rw [if_pos hc]
      intro x hx hdd
      rcases List.mem_or_eq_of_mem_set hx with h | h
      · exact hp x h hdd
      · rw [h]
    · rw [if_neg hc]
      exact hp

theorem do_file_mark_dotdot (p : MarkPanel) (idx : Nat) (mark : Bool)
    (hp : DotdotUnmarked p) : DotdotUnmarked (do_file_mark p idx mark) := by
  unfold do_file_mark
  cases hg : p.list.get? idx with
  | none => simp only [hg]; exact hp
  | some fe =>
    simp only [hg]
    by_cases heq : fe.marked = mark
    · rw [if_pos heq]; exact hp
    · rw [if_neg heq]
      by_cases hdd : DIR_IS_DOTDOT fe.fname = true
      · rw [if_pos hdd]; exact hp
      · rw [if_neg hdd]
        have hfm : DotdotUnmarked (file_mark p idx mark) := by
          unfold file_mark
          simp only [hg]
          by_cases hc : fe.marked ≠ mark
          · rw [if_pos hc]
            intro x hx hxdd
            rcases List.mem_or_eq_of_mem_set hx with h | h
            · exact hp x h hxdd
            · subst h
              simp only at hxdd
              exact absurd hxdd (by simpa using hdd)
          · rw [if_neg hc]
            exact hp
        split <;> exact hfm

theorem mark_fold_clear_dotdot (p : MarkPanel) (l : List Nat) (hp : DotdotUnmarked p) :
    DotdotUnmarked (l.foldl (fun q i => file_mark q i false) p) := by
  induction l generalizing p with
  | nil => exact hp
  | cons i rest ih => exact ih _ (file_mark_clear_dotdot p i hp)

theorem unmark_files_dotdot (p : MarkPanel) (hp : DotdotUnmarked p) :
    DotdotUnmarked (unmark_files p) := by
  unfold unmark_files
  split
  · intro x hx
    exact mark_fold_clear_dotdot p _ hp x hx
  · exact hp

theorem recalcStep_dotdot (q : MarkPanel) (i : Nat) (hq : DotdotUnmarked q) :
    DotdotUnmarked (recalcStep q i) := by
  unfold recalcStep
  cases hg : q.list.get? i with
  | none => simp only [hg]; exact hq
  | some fe =>
    simp only [hg]
    by_cases hm : fe.marked = true
    · rw [if_pos hm]
      refine do_file_mark_dotdot _ i true ?_
      intro x hx hdd
      rcases List.mem_or_eq_of_mem_set hx with h | h
      · exact hq x h hdd
      · rw [h]
    · rw [if_neg hm]
      exact hq

theorem recalculate_dotdot (p : MarkPanel) (hp : DotdotUnmarked p) :
    DotdotUnmarked (recalculate_panel_summary p) := by
  unfold recalculate_panel_summary
  have hstep : ∀ (l : List Nat) (q : MarkPanel), DotdotUnmarked q →
      DotdotUnmarked (l.foldl recalcStep q) := by
    intro l
    induction l with
    | nil => intro q hq; exact hq
    | cons i rest ih =>
      intro q hq
      exact ih _ (recalcStep_dotdot q i hq)
  exact hstep _ _ (by intro x hx; exact hp x hx)

/-- **C9 (amended).** For every sequence of marking operations among
`do_file_mark`, `recalculate_panel_summary`, `unmark_files` and the clearing
direction of `file_mark`, the synthetic `..` entry's marked flag remains
unset.  `file_mark` with value 1 must be excluded: it is the raw flag setter
with no dotdot guard (see the counterexample); inside the repository it is
only called with value 1 through `do_file_mark`, after the guard. -/
theorem mark_ops_never_mark_dotdot (p : MarkPanel) (hp : DotdotUnmarked p)
    (ops : List MarkOp) : DotdotUnmarked (ops.foldl markStep p) := by
  induction ops generalizing p with
  | nil => exact hp
  | cons op rest ih =>
    refine ih _ ?_
    cases op with
    | doFileMark idx mark => exact do_file_mark_dotdot p idx mark hp
    | fileMarkClear idx => exact file_mark_clear_dotdot p idx hp
    | unmarkAll => exact unmark_files_dotdot p hp
    | recalcSummary => exact recalculate_dotdot p hp

/-- **C9 (counterexample).** The claim as stated includes `file_mark` among
the public-interface marking operations, but `file_mark` (panel.c:4705) has
no dotdot guard: called with index 0 and value 1 on a panel whose first
entry is `..`, it sets the dotdot entry's marked flag. -/
theorem file_mark_marks_dotdot_cx :
    DotdotUnmarked ⟨[⟨"..", false, true, false, 0⟩], 0, 0, 0⟩ ∧
      ¬ DotdotUnmarked (file_mark ⟨[⟨"..", false, true, false, 0⟩], 0, 0, 0⟩ 0 true) := by
  decide

/-- Witness for `mark_ops_never_mark_dotdot` at a concrete input. -/
theorem mark_ops_never_mark_dotdot_witness :
    DotdotUnmarked ⟨[⟨"..", false, true, false, 0⟩, ⟨"a", false, false, false, 5⟩], 0, 0, 0⟩ ∧
      DotdotUnmarked
        ([MarkOp.doFileMark 0 true, MarkOp.doFileMark 1 true, MarkOp.recalcSummary,
          MarkOp.unmarkAll].foldl markStep
          ⟨[⟨"..", false, true, false, 0⟩, ⟨"a", false, false, false, 5⟩], 0, 0, 0⟩) :=
  ⟨by decide,
    mark_ops_never_mark_dotdot
      ⟨[⟨"..", false, true, false, 0⟩, ⟨"a", false, false, false, 5⟩], 0, 0, 0⟩ (by decide)
      [MarkOp.doFileMark 0 true, MarkOp.doFileMark 1 true, MarkOp.recalcSummary,
        MarkOp.unmarkAll]⟩

/-! ## Incremental search (`do_search`, panel.c:2657-2761)

The embedding covers the keystroke path for a complete single-byte
character: `search_char` receives the byte, `str_is_valid_char` succeeds,
and the character is appended to `search_buffer` *only if it fits*
(`l + search_chpoint < sizeof (panel->search_buffer)`, panel.c:2697); the
buffer capacity `MC_MAXFILENAMELEN` is defined in `lib/fs.h`, outside the
provided sources, so the embedding carries it as the parameter `cap`.
The pattern built is `"<buffer>*"` with glob syntax, special characters
escaped and `is_entire_line` set, i.e. a literal prefix match, with case
sensitivity from the panel options (`searchMatch` models the external
`mc_search` collaborator on exactly this pattern class).  On success the
selection moves to the match (`select_item` then only readjusts the
viewport); on failure with a non-backspace key the last character of the
buffer at its *current* length is cut (panel.c:2752-2757). -/

def searchMatch (case_sensitive : Bool) (buf : List Char) (fname : String) : Bool :=
  if case_sensitive then buf.isPrefixOf fname.toList
  else (buf.map Char.toLower).isPrefixOf (fname.toList.map Char.toLower)

/-- The search loop of `do_search` (panel.c:2729-2744):
`for (i = panel->selected; !wrapped || i != panel->selected; i++)` with the
in-body reset `if (i >= len) { i = 0; if (wrapped) break; wrapped = TRUE; }`.
The loop runs at most `2 * len + 2` iterations, so the fuel below is never
exhausted; on exhaustion the result is `none`, which coincides with the
loop's not-found result. -/
def searchLoopAux (matchAt : Nat → Bool) (len sel : Nat) :
    Nat → Nat → Bool → Option Nat
  | 0, _, _ => none
  | fuel + 1, i, wrapped =>
    if ¬ wrapped ∨ i ≠ sel then
      if i ≥ len then
        if wrapped then none
        else if matchAt 0 then some 0 else searchLoopAux matchAt len sel fuel 1 true
      else
        if matchAt i then some i else searchLoopAux matchAt len sel fuel (i + 1) wrapped
    else none

structure SearchPanel where
  entries : List String
  selected : Nat
  search_buffer : List Char
deriving Repr, DecidableEq

/-- `do_search (panel, c_code)` for a printable single-byte character
(non-backspace path).  `cap` is `sizeof (panel->search_buffer)`. -/
def do_search_char (cap : Nat) (case_sensitive : Bool) (p : SearchPanel) (c : Char) :
    SearchPanel :=
  let l := p.search_buffer.length
  let buf1 := if l + 1 < cap then p.search_buffer ++ [c] else p.search_buffer
  let matchAt := fun i =>
    match p.entries.get? i with
    | none => false
    | some f => searchMatch case_sensitive buf1 f
  match searchLoopAux matchAt p.entries.length p.selected
      (2 * p.entries.length + 3) p.selected false with
  | some i => { p with selected := i, search_buffer := buf1 }
  | none => { p with search_buffer := buf1.dropLast }

theorem searchLoopAux_none (matchAt : Nat → Bool) (len sel : Nat)
    (h : ∀ i, matchAt i = false) :
    ∀ (fuel i : Nat) (wrapped : Bool), searchLoopAux matchAt len sel fuel i wrapped = none := by
  intro fuel
  induction fuel with
  | zero => intro i wrapped; rfl
  | succ n ih =>
    intro i wrapped
    simp only [searchLoopAux, h]
    split
    · split
      · split
        · rfl
        · simp only [Bool.false_eq_true, if_false]
          exact ih 1 true
      · simp only [Bool.false_eq_true, if_false]
        exact ih (i + 1) wrapped
    · rfl

/-- **C8 (amended).** For every non-backspace complete-character keystroke
during incremental search on a fixed entry list, *provided the extended
buffer still fits in the search buffer* (`l + 1 < cap`), if no entry matches
the extended buffer then the keystroke is rolled back: the buffer returns to
its value before the keystroke and the selection is unchanged.  The fitting
condition is forced by the code (see the counterexample): when the buffer is
full the character is never appended (panel.c:2697), the search runs on the
*old* buffer, and a failure then cuts a character that was part of the old
buffer. -/
theorem do_search_rollback (cap : Nat) (case_sensitive : Bool) (p : SearchPanel) (c : Char)
    (hroom : p.search_buffer.length + 1 < cap)
    (hnomatch : ∀ f ∈ p.entries,
      searchMatch case_sensitive (p.search_buffer ++ [c]) f = false) :
    (do_search_char cap case_sensitive p c).search_buffer = p.search_buffer ∧
      (do_search_char cap case_sensitive p c).selected = p.selected := by
  unfold do_search_char
  simp only [if_pos hroom]
  rw [searchLoopAux_none _ _ _ ?hall]
  case hall =>
    intro i
    cases hg : p.entries.get? i with
    | none => simp
    | some f =>
      simp only [hg]
      exact hnomatch f (List.get?_mem hg)
  constructor
  · simp [List.dropLast_concat]
  · rfl

/-- **C8 (counterexample).** With a full search buffer (capacity 4, buffer
`"abc"`), the keystroke `x` is not appended; the extended buffer `"abcx"`
matches no entry of `["zzz"]` (the claim's hypothesis holds), yet the
rollback removes `c` from the *old* buffer, leaving `"ab"` instead of the
pre-keystroke `"abc"`. -/
theorem do_search_full_buffer_cx :
    (∀ f ∈ ["zzz"], searchMatch true (['a', 'b', 'c'] ++ ['x']) f = false) ∧
      (do_search_char 4 true ⟨["zzz"], 0, ['a', 'b', 'c']⟩ 'x').search_buffer ≠
        ['a', 'b', 'c'] := by
  decide

/-- Witness for `do_search_rollback` at a concrete input. -/
theorem do_search_rollback_witness :
    ((['z'] : List Char).length + 1 < 16) ∧
      (∀ f ∈ ["abc"], searchMatch true (['z'] ++ ['q']) f = false) ∧
      (do_search_char 16 true ⟨["abc"], 0, ['z']⟩ 'q').search_buffer = ['z'] ∧
      (do_search_char 16 true ⟨["abc"], 0, ['z']⟩ 'q').selected = 0 :=
  ⟨by decide, by decide,
    (do_search_rollback 16 true ⟨["abc"], 0, ['z']⟩ 'q' (by decide) (by decide)).1,
    (do_search_rollback 16 true ⟨["abc"], 0, ['z']⟩ 'q' (by decide) (by decide)).2⟩

/-! ## Tab ring (panel.c:5113-5460, 5785-5827)

A panel's tabs form a circular doubly-linked `GList` with a head pointer
`tabs.list` and a `tabs.current` pointer.  The embedding represents the
ring as the list of tabs in head order (`tabs.list` is index 0, following
`next` pointers) plus the index of the current tab; a head-pointer move is
a rotation of the list.  `vfs_path_t` values are opaque path strings.

`get_new_tabs_direction` (panel.c:5117-5138) only ever returns
`TABDIR_NEXT`, `TABDIR_PREV`, `TABDIR_FIRST` or `TABDIR_LAST`, and those are
the only directions `create_tab` is called with in the repository, so the
insertion direction is a separate four-constructor type
(`create_tab` with `TABDIR_ABSOLUTE` would leave `pTabListItem == NULL` and
detach the current pointer — dead code here). -/

structure Tab where
  name : Option String
  path : Option String
deriving Repr, DecidableEq

structure TabPanel where
  tabs : List Tab
  current : Nat
  cwd : String
deriving Repr, DecidableEq

inductive TabInsertDir where
  | next | prev | first | last
deriving Repr, DecidableEq

inductive TabsDirection where
  | next | prev | first | last | absolute
deriving Repr, DecidableEq

/-- `create_tab` (panel.c:5410-5460) for a non-empty ring, plus the
empty-ring branch (`pTabListItem == NULL`): the new node becomes head and
current.  Inserting `TABDIR_PREV` of the head places the node between tail
and head, i.e. at the end of head order (the head pointer does not move);
`TABDIR_FIRST` additionally redirects the head pointer to the new node. -/
def create_tab (p : TabPanel) (d : TabInsertDir) (t : Option Tab) : TabPanel :=
  let tab := t.getD ⟨none, none⟩
  if p.tabs.isEmpty then
    { p with tabs := [tab], current := 0 }
  else
    match d with
    | .next => { p with tabs := p.tabs.take (p.current + 1) ++ tab :: p.tabs.drop (p.current + 1) }
    | .prev =>
      if p.current = 0 then { p with tabs := p.tabs ++ [tab] }
      else
        { p with tabs := (p.tabs.take p.current ++ tab :: p.tabs.drop p.current)
                 current := p.current + 1 }
    | .last => { p with tabs := p.tabs ++ [tab] }
    | .first => { p with tabs := tab :: p.tabs, current := p.current + 1 }

/-- The ring index at which `create_tab` placed the new node (used by
`move_tab_to_other_panel`, whose search loop finds the inserted node by
data-pointer identity). -/
def create_tab_index (p : TabPanel) (d : TabInsertDir) : Nat :=
  if p.tabs.isEmpty then 0
  else
    match d with
    | .next => p.current + 1
    | .prev => if p.current = 0 then p.tabs.length else p.current
    | .last => p.tabs.length
    | .first => 0

/-- `change_tab` (panel.c:5785-5827): snapshot the outgoing tab's path from
the panel's live cwd, move `current` by the direction (or to the explicit
target member), then change directory to the new current tab's stored path
when it has one (`do_panel_cd` is the external directory-change
collaborator; its possible failure leaves the cwd unchanged and is not
modelled). -/
def change_tab (p : TabPanel) (d : TabsDirection) (target : Option Nat) : TabPanel :=
  if p.tabs.isEmpty then p
  else
    let tabs1 :=
      match p.tabs.get? p.current with
      | some t => p.tabs.set p.current { t with path := some p.cwd }
      | none => p.tabs
    let n := p.tabs.length
    let cur1 :=
      match d with
      | .next => (p.current + 1) % n
      | .prev => (p.current + n - 1) % n
      | .first => 0
      | .last => n - 1
      | .absolute =>
        match target with
        | some j => j
        | none => p.current
    match (tabs1.get? cur1).bind Tab.path with
    | some q => { p with tabs := tabs1, current := cur1, cwd := q }
    | none => { p with tabs := tabs1, current := cur1 }

/-- `close_tab` (panel.c:5304-5329): refuse on a single-member ring
(`list->next == list`), else switch to the previous tab via `change_tab`,
unlink and free the old current node, and advance the head if the closed
node was the head (in head order, erasing index 0 makes the old index 1 the
new head).  The `Bool` is the user-visible error flag. -/
def close_tab (p : TabPanel) : TabPanel × Bool :=
  if p.tabs.length ≤ 1 then (p, true)
  else
    let first := p.current = 0
    let c := p.current
    let p1 := change_tab p .prev none
    ({ p1 with tabs := p1.tabs.eraseIdx c
               current := if first then p1.tabs.length - 2 else c - 1 }, false)

/-- `move_tab_to_other_panel` (panel.c:5252-5298): refuse when the current
panel's ring is a single member; else rotate the head off the current node
if needed, transplant the current tab's data into the other panel's ring at
the configured direction, switch the current panel to the previous tab,
unlink the moved node, switch the other panel to the transplanted node,
and re-point the current panel at its (new) head if the head was rotated.
The transplanted `Tab` struct is shared by pointer, so the snapshot done by
`change_tab (cpanel, TABDIR_PREV)` (which sets `t->path` to the current
panel's cwd) is visible in the other panel's ring; the embedding inserts
the tab with that path directly. -/
def move_tab_to_other_panel (cp op_ : TabPanel) (d : TabInsertDir) :
    (TabPanel × TabPanel) × Bool :=
  if cp.tabs.length ≤ 1 then ((cp, op_), true)
  else
    let firstTab := cp.current = 0
    let cp0 := if firstTab then
        { cp with tabs := (cp.tabs.drop 1 ++ cp.tabs.take 1)
                  current := cp.tabs.length - 1 }
      else cp
    let t := (cp0.tabs.get? cp0.current).getD ⟨none, none⟩
    let op1 := create_tab op_ d (some { t with path := some cp.cwd })
    let j := create_tab_index op_ d
    let cp1 := change_tab cp0 .prev none
    let cp2 : TabPanel :=
      { cp1 with tabs := cp1.tabs.eraseIdx cp0.current
                 current := cp0.current - 1 }
    let op2 := change_tab op1 .absolute (some j)
    let cp3 := if firstTab then change_tab cp2 .absolute (some 0) else cp2
    ((cp3, op2), false)

/-- The two-panel tab state and the ring-mutating tab operations. -/
structure TwoPanels where
  cur : TabPanel
  other : TabPanel
deriving Repr, DecidableEq

inductive TabOp where
  | create (d : TabInsertDir)
  | change (d : TabsDirection) (target : Option Nat)
  | close
  | moveToOther (d : TabInsertDir)
deriving Repr, DecidableEq

def tabStep (s : TwoPanels) : TabOp → TwoPanels
  | .create d => { s with cur := create_tab s.cur d none }
  | .change d target => { s with cur := change_tab s.cur d target }
  | .close => { s with cur := (close_tab s.cur).1 }
  | .moveToOther d =>
    ⟨(move_tab_to_other_panel s.cur s.other d).1.1,
      (move_tab_to_other_panel s.cur s.other d).1.2⟩

theorem change_tab_length (p : TabPanel) (d : TabsDirection) (target : Option Nat) :
    (change_tab p d target).tabs.length = p.tabs.length := by
  unfold change_tab
  split
  · rfl
  · cases hg : p.tabs.get? p.current <;>
      simp only [hg] <;>
      (split <;> simp [List.length_set])

theorem create_tab_length (p : TabPanel) (d : TabInsertDir) (t : Option Tab) :
    (create_tab p d t).tabs.length = (if p.tabs.isEmpty then 1 else p.tabs.length + 1) := by
  by_cases he : p.tabs.isEmpty
  · cases d <;> simp [create_tab, he]
  · rw [if_neg he]
    cases d
    · simp [create_tab, he]
      omega
    · by_cases hc : p.current = 0
      · simp [create_tab, he, hc]
      · simp [create_tab, he, hc]
        omega
    · simp [create_tab, he]
    · simp [create_tab, he]

theorem length_eraseIdx_bounds (l : List Tab) (i : Nat) :
    l.length - 1 ≤ (l.eraseIdx i).length ∧ (l.eraseIdx i).length ≤ l.length := by
  induction l generalizing i with
  | nil => simp
  | cons hd tl ih =>
    cases i with
    | zero => simp
    | succ j =>
      have := ih j
      simp only [List.eraseIdx, List.length_cons]
      omega

theorem length_eraseIdx_lt (l : List Tab) (i : Nat) (h : i < l.length) :
    (l.eraseIdx i).length = l.length - 1 := by
  induction l generalizing i with
  | nil => simp at h
  | cons hd tl ih =>
    cases i with
    | zero => simp
    | succ j =>
      simp only [List.eraseIdx, List.length_cons]
      rw [ih j (by simpa using h)]
      simp only [List.length_cons] at h
      omega

theorem close_tab_length (p : TabPanel) (h : 2 ≤ p.tabs.length)
    (hcur : p.current < p.tabs.length) :
    (close_tab p).1.tabs.length = p.tabs.length - 1 := by
  unfold close_tab
  rw [if_neg (by omega)]
  simp only
  rw [length_eraseIdx_lt _ _ (by rw [change_tab_length]; exact hcur), change_tab_length]

theorem close_tab_pos (p : TabPanel) (h : 1 ≤ p.tabs.length) :
    1 ≤ (close_tab p).1.tabs.length := by
  unfold close_tab
  split
  · simpa using h
  · rename_i hgt
    simp only
    have hb := length_eraseIdx_bounds (change_tab p .prev none).tabs p.current
    rw [change_tab_length] at hb
    omega

theorem length_pos_of_erase (l : List Tab) (i : Nat) (h : 2 ≤ l.length) :
    1 ≤ (l.eraseIdx i).length := by
  have := length_eraseIdx_bounds l i
  omega

theorem move_tab_lengths (cp op_ : TabPanel) (d : TabInsertDir)
    (h : 2 ≤ cp.tabs.length) :
    1 ≤ ((move_tab_to_other_panel cp op_ d).1.1).tabs.length ∧
      1 ≤ ((move_tab_to_other_panel cp op_ d).1.2).tabs.length := by
  unfold move_tab_to_other_panel
  rw [if_neg (by omega)]
  constructor
  · simp only
    split
    · rw [change_tab_length]
      refine length_pos_of_erase _ _ ?_
      rw [change_tab_length]
      simp only [List.length_append, List.length_drop, List.length_take]
      omega
    · refine length_pos_of_erase _ _ ?_
      rw [change_tab_length]
      omega
  · simp only
    rw [change_tab_length, create_tab_length]
    split <;> omega

theorem tabStep_pos (t : TwoPanels) (ht1 : 1 ≤ t.cur.tabs.length)
    (ht2 : 1 ≤ t.other.tabs.length) (op : TabOp) :
    1 ≤ (tabStep t op).cur.tabs.length ∧ 1 ≤ (tabStep t op).other.tabs.length := by
  cases op with
  | create d =>
    refine ⟨?_, ht2⟩
    simp only [tabStep]
    rw [create_tab_length]
    split <;> omega
  | change d target =>
    refine ⟨?_, ht2⟩
    simp only [tabStep]
    rw [change_tab_length]
    exact ht1
  | close =>
    refine ⟨?_, ht2⟩
    simp only [tabStep]
    exact close_tab_pos _ ht1
  | moveToOther d =>
    by_cases hc : 2 ≤ t.cur.tabs.length
    · have hm := move_tab_lengths t.cur t.other d hc
      exact ⟨hm.1, hm.2⟩
    · have hone : t.cur.tabs.length ≤ 1 := by omega
      simp only [tabStep]
      unfold move_tab_to_other_panel
      rw [if_pos hone]
      exact ⟨ht1, ht2⟩

theorem tabSteps_pos (ops : List TabOp) :
    ∀ (t : TwoPanels), 1 ≤ t.cur.tabs.length → 1 ≤ t.other.tabs.length →
    1 ≤ ((ops.foldl tabStep t).cur.tabs.length) ∧
      1 ≤ ((ops.foldl tabStep t).other.tabs.length) := by
  induction ops with
  | nil => intro t h1 h2; exact ⟨h1, h2⟩
  | cons op rest ih =>
    intro t h1 h2
    have := tabStep_pos t h1 h2 op
    exact ih _ this.1 this.2

/-- **C4 (confirmed).** For a panel whose ring has exactly one member,
`close_tab` and `move_tab_to_other_panel` leave both panels' states exactly
unchanged (membership, order, head and current pointers — the full ring
representation) and raise the user-visible error flag; and no tab operation
(`create_tab`, `change_tab`, `close_tab`, `move_tab_to_other_panel`, in any
sequence) ever reduces either ring below one member. -/
theorem tab_ring_never_below_one (s : TwoPanels) (d : TabInsertDir)
    (h1 : 1 ≤ s.cur.tabs.length) (h2 : 1 ≤ s.other.tabs.length) :
    (s.cur.tabs.length = 1 →
      close_tab s.cur = (s.cur, true) ∧
      move_tab_to_other_panel s.cur s.other d = ((s.cur, s.other), true)) ∧
    (∀ ops : List TabOp,
      1 ≤ ((ops.foldl tabStep s).cur.tabs.length) ∧
        1 ≤ ((ops.foldl tabStep s).other.tabs.length)) := by
  constructor
  · intro hone
    constructor
    · unfold close_tab
      rw [if_pos (by omega)]
    · unfold move_tab_to_other_panel
      rw [if_pos (by omega)]
  · intro ops
    exact tabSteps_pos ops s h1 h2

/-- Witness for `tab_ring_never_below_one` at a concrete input. -/
theorem tab_ring_never_below_one_witness :
    (1 ≤ (TwoPanels.mk ⟨[⟨some "A", some "/a"⟩], 0, "/a"⟩
        ⟨[⟨some "B", some "/b"⟩], 0, "/b"⟩).cur.tabs.length) ∧
      (1 ≤ (TwoPanels.mk ⟨[⟨some "A", some "/a"⟩], 0, "/a"⟩
        ⟨[⟨some "B", some "/b"⟩], 0, "/b"⟩).other.tabs.length) ∧
      ((TwoPanels.mk ⟨[⟨some "A", some "/a"⟩], 0, "/a"⟩
          ⟨[⟨some "B", some "/b"⟩], 0, "/b"⟩).cur.tabs.length = 1 →
        close_tab ⟨[⟨some "A", some "/a"⟩], 0, "/a"⟩ =
          (⟨[⟨some "A", some "/a"⟩], 0, "/a"⟩, true) ∧
        move_tab_to_other_panel ⟨[⟨some "A", some "/a"⟩], 0, "/a"⟩
            ⟨[⟨some "B", some "/b"⟩], 0, "/b"⟩ TabInsertDir.last =
          ((⟨[⟨some "A", some "/a"⟩], 0, "/a"⟩, ⟨[⟨some "B", some "/b"⟩], 0, "/b"⟩), true)) ∧
      (∀ ops : List TabOp,
        1 ≤ ((ops.foldl tabStep (TwoPanels.mk ⟨[⟨some "A", some "/a"⟩], 0, "/a"⟩
            ⟨[⟨some "B", some "/b"⟩], 0, "/b"⟩)).cur.tabs.length) ∧
          1 ≤ ((ops.foldl tabStep (TwoPanels.mk ⟨[⟨some "A", some "/a"⟩], 0, "/a"⟩
            ⟨[⟨some "B", some "/b"⟩], 0, "/b"⟩)).other.tabs.length)) :=
  ⟨by decide, by decide,
    (tab_ring_never_below_one
      (TwoPanels.mk ⟨[⟨some "A", some "/a"⟩], 0, "/a"⟩ ⟨[⟨some "B", some "/b"⟩], 0, "/b"⟩)
      TabInsertDir.last (by decide) (by decide)).1,
    (tab_ring_never_below_one
      (TwoPanels.mk ⟨[⟨some "A", some "/a"⟩], 0, "/a"⟩ ⟨[⟨some "B", some "/b"⟩], 0, "/b"⟩)
      TabInsertDir.last (by decide) (by decide)).2⟩

theorem eraseIdx_set_self (l : List Tab) (i : Nat) (x : Tab) :
    (l.set i x).eraseIdx i = l.eraseIdx i := by
  induction l generalizing i with
  | nil => simp
  | cons hd tl ih =>
    cases i with
    | zero => simp
    | succ j => simp [ih j]

theorem get?_set_ne_tab (l : List Tab) (i j : Nat) (x : Tab) (h : i ≠ j) :
    (l.set i x).get? j = l.get? j := by
  induction l generalizing i j with
  | nil => simp
  | cons hd tl ih =>
    cases i with
    | zero =>
      cases j with
      | zero => exact absurd rfl h
      | succ jj => simp
    | succ ii =>
      cases j with
      | zero => simp
      | succ jj => simpa using ih ii jj (by omega)

/-- **C7 (confirmed).** Closing a tab on a ring with more than one member:
the error flag stays clear; the resulting ring (in head order) is the old
ring with the closed (current) node removed — which in particular advances
the head to the old second node when the closed node was the head; the new
current is the old previous tab (index `current - 1`, or the old tail when
the head was closed); and the directory first switched to the previous
tab's stored path, because panel.c:5317 runs `change_tab (p, TABDIR_PREV,
NULL)` *before* unlinking.  The scenario conjuncts: on the ring `A,B,C`
with current `B`, close yields ring `A,C` with current `A` (and the panel
cd'd to `A`'s stored path), and close on a one-tab ring is refused with an
error, leaving the ring unchanged. -/
theorem close_tab_semantics (p : TabPanel) (h : 2 ≤ p.tabs.length)
    (hcur : p.current < p.tabs.length) :
    (close_tab p).2 = false ∧
      (close_tab p).1.tabs = p.tabs.eraseIdx p.current ∧
      (close_tab p).1.current =
        (if p.current = 0 then p.tabs.length - 2 else p.current - 1) ∧
      (close_tab p).1.cwd =
        (match (p.tabs.get? ((p.current + p.tabs.length - 1) % p.tabs.length)).bind
            Tab.path with
          | some q => q
          | none => p.cwd) ∧
      close_tab ⟨[⟨some "A", some "/a"⟩, ⟨some "B", some "/b"⟩, ⟨some "C", some "/c"⟩],
          1, "/b"⟩ =
        (⟨[⟨some "A", some "/a"⟩, ⟨some "C", some "/c"⟩], 0, "/a"⟩, false) ∧
      close_tab ⟨[⟨some "C", some "/c"⟩], 0, "/c"⟩ =
        (⟨[⟨some "C", some "/c"⟩], 0, "/c"⟩, true) := by
  have hne : ¬ p.tabs.length ≤ 1 := by omega
  have hempty : ¬ p.tabs.isEmpty = true := by
    cases hx : p.tabs with
    | nil => rw [hx] at h; simp at h
    | cons a l => simp
  obtain ⟨t0, ht0⟩ : ∃ t0, p.tabs.get? p.current = some t0 := by
    cases hg : p.tabs.get? p.current with
    | none =>
      exfalso
      rw [List.get?_eq_none] at hg
      omega
    | some t0 => exact ⟨t0, rfl⟩
  have hprev : ((p.current + p.tabs.length - 1) % p.tabs.length) =
      (if p.current = 0 then p.tabs.length - 1 else p.current - 1) := by
    by_cases hc : p.current = 0
    · rw [if_pos hc, hc]
      simp
    · rw [if_neg hc]
      have harith : p.current + p.tabs.length - 1 = (p.current - 1) + p.tabs.length := by
        omega
      rw [harith, Nat.add_mod_right]
      exact Nat.mod_eq_of_lt (by omega)
  have hprev_ne : p.current ≠ (p.current + p.tabs.length - 1) % p.tabs.length := by
    rw [hprev]
    split <;> omega
  have hct : change_tab p TabsDirection.prev none =
      { p with
        tabs := p.tabs.set p.current { t0 with path := some p.cwd }
        current := (p.current + p.tabs.length - 1) % p.tabs.length
        cwd := match (p.tabs.get? ((p.current + p.tabs.length - 1) % p.tabs.length)).bind
            Tab.path with
          | some q => q
          | none => p.cwd } := by
    unfold change_tab
    rw [if_neg hempty]
    simp only [ht0]
    rw [get?_set_ne_tab _ _ _ _ hprev_ne]
    cases hq : (p.tabs.get? ((p.current + p.tabs.length - 1) % p.tabs.length)).bind
        Tab.path <;> simp [hq]
  refine ⟨?_, ?_, ?_, ?_, ?_, ?_⟩
  · unfold close_tab
    rw [if_neg hne]
  · unfold close_tab
    rw [if_neg hne]
    simp only [hct]
    exact eraseIdx_set_self p.tabs p.current _
  · unfold close_tab
    rw [if_neg hne]
    simp only [hct, List.length_set]
  · unfold close_tab
    rw [if_neg hne]
    simp only [hct]
  · decide
  · decide

/-- Witness for `close_tab_semantics` at a concrete input. -/
theorem close_tab_semantics_witness :
    (2 ≤ (TabPanel.mk [⟨some "X", some "/x"⟩, ⟨some "Y", some "/y"⟩] 1 "/y").tabs.length) ∧
      ((TabPanel.mk [⟨some "X", some "/x"⟩, ⟨some "Y", some "/y"⟩] 1 "/y").current <
        (TabPanel.mk [⟨some "X", some "/x"⟩, ⟨some "Y", some "/y"⟩] 1 "/y").tabs.length) ∧
      ((close_tab ⟨[⟨some "X", some "/x"⟩, ⟨some "Y", some "/y"⟩], 1, "/y"⟩).2 = false ∧
        (close_tab ⟨[⟨some "X", some "/x"⟩, ⟨some "Y", some "/y"⟩], 1, "/y"⟩).1.tabs =
          ([⟨some "X", some "/x"⟩, ⟨some "Y", some "/y"⟩] : List Tab).eraseIdx 1) :=
  ⟨by decide, by decide,
    (close_tab_semantics ⟨[⟨some "X", some "/x"⟩, ⟨some "Y", some "/y"⟩], 1, "/y"⟩
      (by decide) (by decide)).1,
    (close_tab_semantics ⟨[⟨some "X", some "/x"⟩, ⟨some "Y", some "/y"⟩], 1, "/y"⟩
      (by decide) (by decide)).2.1⟩

/-! ## Tab session restore (panel.c:5477-5654)

The session file is modelled as its list of newline-terminated lines.
`read_line` (panel.c:5560-5570) wraps `fgets`: at end of file the buffer
keeps its previous contents and the stream's EOF flag is raised.  The
`fscanf (f, "%d\n%d\n", ...)` call reads two integers; the whitespace
directives make it skip blank lines, which matters after a `-1` (skipped)
section, where the blank separator line written by `save_tabs_session` is
consumed by the trailing `"\n"` directive.  When fewer than two items are
converted, the unassigned C variables are indeterminate; the caller only
tests them under the `fscanf_items_read != 2` disjunct, so the model's
fixed value 0 is observation-equivalent. -/

structure TabFile where
  lines : List String
  eofFlag : Bool
deriving Repr, DecidableEq

def read_line (buf : String) (f : TabFile) : String × TabFile :=
  match f.lines with
  | [] => (buf, { f with eofFlag := true })
  | l :: rest => (l, { f with lines := rest })

def skipBlankLines (ls : List String) : List String := ls.dropWhile (· = "")

def digitsToNat (ds : List Char) : Nat :=
  ds.foldl (fun a c => a * 10 + (c.toNat - 48)) 0

/-- The `%d` conversion of `fscanf` applied to one line: an optional minus
sign followed by decimal digits (the session files written by
`save_tabs_session` hold exactly one integer per count line). -/
def parseIntLine (s : String) : Option Int :=
  match s.data with
  | [] => none
  | c :: ds =>
    if c = '-' then
      if ds ≠ [] ∧ ds.all Char.isDigit then some (-(digitsToNat ds : Int)) else none
    else
      if (c :: ds).all Char.isDigit then some ((digitsToNat (c :: ds) : Int)) else none

def fscanf_two_ints (f : TabFile) : Nat × Int × Int × TabFile :=
  match skipBlankLines f.lines with
  | [] => (0, 0, 0, { f with lines := [], eofFlag := true })
  | l1 :: rest1 =>
    match parseIntLine l1 with
    | none => (0, 0, 0, { f with lines := l1 :: rest1 })
    | some v1 =>
      match skipBlankLines rest1 with
      | [] => (1, v1, 0, { f with lines := [], eofFlag := true })
      | l2 :: rest2 =>
        match parseIntLine l2 with
        | none => (1, v1, 0, { f with lines := l2 :: rest2 })
        | some v2 => (2, v1, v2, { f with lines := skipBlankLines rest2 })

structure RestoredTabs where
  error : Bool
  idx : Int
  list : List Tab
  current : Option Nat
deriving Repr, DecidableEq

/-- The tab-reading loop of `_restore_tabs` (panel.c:5498-5543).  Each
iteration reads a name line (loop exit on a blank line or EOF), then a path
line (a blank path is the validation failure: `result.error = 1` with the
partial ring kept), appends the tab, records `current` when the running
index reaches `crt_idx`, and continues while not at EOF.  Every continuing
iteration consumes at least one line, so fuel `lines + 2` is never
exhausted. -/
def restoreLoopAux : Nat → TabFile → String → List Tab → Nat → Int → Option Nat →
    TabFile × List Tab × Option Nat × Bool
  | 0, f, _, tabs, _, _, curr => (f, tabs, curr, false)
  | fuel + 1, f, buf, tabs, idx, crt_idx, curr =>
    let r1 := read_line buf f
    if r1.1 ≠ "" ∧ ¬ r1.2.eofFlag then
      let t_name : Option String := if r1.1 = "(null)" then none else some r1.1
      let r2 := read_line r1.1 r1.2
      if r2.1 = "" then (r2.2, tabs, curr, true)
      else
        let tabs2 := tabs ++ [(⟨t_name, some r2.1⟩ : Tab)]
        let curr2 := if (idx : Int) = crt_idx then some tabs.length else curr
        if r2.2.eofFlag then (r2.2, tabs2, curr2, false)
        else restoreLoopAux fuel r2.2 r2.1 tabs2 (idx + 1) crt_idx curr2
    else (r1.2, tabs, curr, false)

/-- `_restore_tabs` (panel.c:5477-5548). -/
def _restore_tabs (f : TabFile) : RestoredTabs × TabFile :=
  let s := fscanf_two_ints f
  if s.2.2.1 = -1 ∨ s.1 ≠ 2 then
    ({ error := false, idx := s.2.1, list := [], current := none }, s.2.2.2)
  else
    let r := restoreLoopAux (s.2.2.2.lines.length + 2) s.2.2.2 "" [] 0 s.2.2.1 none
    ({ error := r.2.2.2, idx := s.2.1, list := r.2.1, current := r.2.2.1 }, r.1)

/-- A panel's tab ring as `restore_tabs_session` replaces it. -/
structure PanelTabs where
  list : List Tab
  current : Option Nat
deriving Repr, DecidableEq

/-- `restore_tabs_session` (panel.c:5571-5654) for an existing session
file: check the `[Current Panel]` header, parse the current panel's
section, check the `[Other Panel]` header, parse the other panel's
section; any failure (`abort_restore`) returns with *neither* panel's ring
replaced.  Only after both sections parsed without error is each panel's
ring replaced — independently, iff its section produced a non-empty list
and that panel is a listing view. -/
def restore_tabs_session (fileLines : List String) (curTabs otherTabs : PanelTabs)
    (curListing otherListing : Bool) : PanelTabs × PanelTabs :=
  let h1 := read_line "" ⟨fileLines, false⟩
  if h1.1 ≠ "[Current Panel]" then (curTabs, otherTabs)
  else
    let s1 := _restore_tabs h1.2
    if s1.1.error then (curTabs, otherTabs)
    else
      let h2 := read_line h1.1 s1.2
      if h2.1 ≠ "[Other Panel]" then (curTabs, otherTabs)
      else
        let s2 := _restore_tabs h2.2
        if s2.1.error then (curTabs, otherTabs)
        else
          (if s1.1.list ≠ [] ∧ curListing then ⟨s1.1.list, s1.1.current⟩ else curTabs,
           if s2.1.list ≠ [] ∧ otherListing then ⟨s2.1.list, s2.1.current⟩ else otherTabs)

/-- The current-panel section's parse result for a session file. -/
def session_sec1 (fileLines : List String) : RestoredTabs × TabFile :=
  _restore_tabs (read_line "" ⟨fileLines, false⟩).2

/-- The other-panel section's parse result for a session file. -/
def session_sec2 (fileLines : List String) : RestoredTabs × TabFile :=
  _restore_tabs (read_line (read_line "" ⟨fileLines, false⟩).1
    (session_sec1 fileLines).2).2

/-- **C6 (amended).** A validation failure in *either* panel's section
aborts the whole restore: neither panel's ring is replaced (conjuncts 1
and 2).  The sections are independent only in the skip/apply sense: when
both sections parse without a validation error, each panel's ring is
replaced (or left untouched, for an empty/skipped `-1` section or a
non-listing panel) purely according to its *own* section, independent of
the other (conjunct 3). -/
theorem restore_tabs_session_spec (fileLines : List String) (A B : PanelTabs)
    (cl ol : Bool) :
    ((session_sec1 fileLines).1.error = true →
        restore_tabs_session fileLines A B cl ol = (A, B)) ∧
    ((session_sec2 fileLines).1.error = true →
        restore_tabs_session fileLines A B cl ol = (A, B)) ∧
    ((read_line "" ⟨fileLines, false⟩).1 = "[Current Panel]" →
      (session_sec1 fileLines).1.error = false →
      (read_line (read_line "" ⟨fileLines, false⟩).1 (session_sec1 fileLines).2).1 =
        "[Other Panel]" →
      (session_sec2 fileLines).1.error = false →
      restore_tabs_session fileLines A B cl ol =
        (if (session_sec1 fileLines).1.list ≠ [] ∧ cl then
            ⟨(session_sec1 fileLines).1.list, (session_sec1 fileLines).1.current⟩ else A,
         if (session_sec2 fileLines).1.list ≠ [] ∧ ol then
            ⟨(session_sec2 fileLines).1.list, (session_sec2 fileLines).1.current⟩ else B)) := by
  unfold restore_tabs_session session_sec2 session_sec1
  refine ⟨?_, ?_, ?_⟩
  · intro h1
    simp only
    split_ifs <;> simp_all
  · intro h2
    simp only
    split_ifs <;> simp_all
  · intro hh1 he1 hh2 he2
    simp only
    split_ifs <;> simp_all

/-- **C6 (counterexample).** A session file whose current-panel section
fails validation (a tab name line followed by an empty path line) while the
other-panel section is valid.  The claim says the other panel's ring is
still replaced from the file; the code aborts the whole restore at
`restored1.error` (panel.c:5596-5602), before the other section is even
read, so both panels keep their previous rings and the other panel's ring
is not the file's ring. -/
theorem restore_abort_not_independent_cx :
    ((session_sec1 ["[Current Panel]", "0", "0", "T1", "", "[Other Panel]",
        "0", "0", "T2", "/tmp", ""]).1.error = true) ∧
      ((session_sec2 ["[Current Panel]", "0", "0", "T1", "", "[Other Panel]",
          "0", "0", "T2", "/tmp", ""]).1.error = false ∧
        (session_sec2 ["[Current Panel]", "0", "0", "T1", "", "[Other Panel]",
          "0", "0", "T2", "/tmp", ""]).1.list = [⟨some "T2", some "/tmp"⟩]) ∧
      restore_tabs_session ["[Current Panel]", "0", "0", "T1", "", "[Other Panel]",
          "0", "0", "T2", "/tmp", ""]
        ⟨[⟨some "OLDC", none⟩], some 0⟩ ⟨[⟨some "OLDO", none⟩], some 0⟩ true true =
        (⟨[⟨some "OLDC", none⟩], some 0⟩, ⟨[⟨some "OLDO", none⟩], some 0⟩) ∧
      (restore_tabs_session ["[Current Panel]", "0", "0", "T1", "", "[Other Panel]",
          "0", "0", "T2", "/tmp", ""]
        ⟨[⟨some "OLDC", none⟩], some 0⟩ ⟨[⟨some "OLDO", none⟩], some 0⟩ true true).2 ≠
        ⟨[⟨some "T2", some "/tmp"⟩], some 0⟩ := by
  decide

/-- Witness for `restore_tabs_session_spec`, at the spec's §8 scenario: a
current-panel section with two tabs and an other-panel section marked `-1`;
the restore replaces the current panel's ring with the two tabs and leaves
the other panel's ring untouched. -/
theorem restore_tabs_session_spec_witness :
    ((read_line "" ⟨["[Current Panel]", "0", "0", "T1", "/a", "T2", "/b", "",
        "[Other Panel]", "1", "-1", ""], false⟩).1 = "[Current Panel]") ∧
      ((session_sec1 ["[Current Panel]", "0", "0", "T1", "/a", "T2", "/b", "",
        "[Other Panel]", "1", "-1", ""]).1.error = false) ∧
      ((read_line (read_line "" ⟨["[Current Panel]", "0", "0", "T1", "/a", "T2", "/b", "",
          "[Other Panel]", "1", "-1", ""], false⟩).1
        (session_sec1 ["[Current Panel]", "0", "0", "T1", "/a", "T2", "/b", "",
          "[Other Panel]", "1", "-1", ""]).2).1 = "[Other Panel]") ∧
      ((session_sec2 ["[Current Panel]", "0", "0", "T1", "/a", "T2", "/b", "",
        "[Other Panel]", "1", "-1", ""]).1.error = false) ∧
      restore_tabs_session ["[Current Panel]", "0", "0", "T1", "/a", "T2", "/b", "",
          "[Other Panel]", "1", "-1", ""]
        ⟨[⟨some "OLDC", none⟩], some 0⟩ ⟨[⟨some "OLDO", none⟩], some 0⟩ true true =
        (if (session_sec1 ["[Current Panel]", "0", "0", "T1", "/a", "T2", "/b", "",
              "[Other Panel]", "1", "-1", ""]).1.list ≠ [] ∧ true then
            ⟨(session_sec1 ["[Current Panel]", "0", "0", "T1", "/a", "T2", "/b", "",
              "[Other Panel]", "1", "-1", ""]).1.list,
             (session_sec1 ["[Current Panel]", "0", "0", "T1", "/a", "T2", "/b", "",
              "[Other Panel]", "1", "-1", ""]).1.current⟩
          else ⟨[⟨some "OLDC", none⟩], some 0⟩,
         if (session_sec2 ["[Current Panel]", "0", "0", "T1", "/a", "T2", "/b", "",
              "[Other Panel]", "1", "-1", ""]).1.list ≠ [] ∧ true then
            ⟨(session_sec2 ["[Current Panel]", "0", "0", "T1", "/a", "T2", "/b", "",
              "[Other Panel]", "1", "-1", ""]).1.list,
             (session_sec2 ["[Current Panel]", "0", "0", "T1", "/a", "T2", "/b", "",
              "[Other Panel]", "1", "-1", ""]).1.current⟩
          else ⟨[⟨some "OLDO", none⟩], some 0⟩) :=
  ⟨by decide, by decide, by decide, by decide,
    (restore_tabs_session_spec ["[Current Panel]", "0", "0", "T1", "/a", "T2", "/b", "",
        "[Other Panel]", "1", "-1", ""]
      ⟨[⟨some "OLDC", none⟩], some 0⟩ ⟨[⟨some "OLDO", none⟩], some 0⟩ true true).2.2
      (by decide) (by decide) (by decide) (by decide)⟩

/-! ## Tab-strip layout (`display_info`, panel.c:5977-6136)

`display_info` builds a byte buffer holding every tab title wrapped in one
leading and one trailing space, each wrapped title followed by one NUL byte
(the `j[0] = 0; j++` at panel.c:6028-6029); titles come from `TAB_TITLE`
(`get_tab_title` with budget `MAX_TAB_TITLE = 30`).  The embedding
represents a buffer position as a pair `(segment, offset)` with
`0 ≤ offset ≤ len + 2`: offset `0` is the leading space, `1..len` the title
characters, `len + 1` the trailing space, and `len + 2` the NUL separator;
the flat pointer equals `segStart + offset` (`flatPos`), a title byte is
never NUL (C strings), so `*p == 0` is exactly `offset = len + 2`
(`isNulCell`), and pointer decrement/increment are `leftOf`/`rightOf`.
`start_tab`/`end_tab` are ring indices in head order, moved with the ring
`prev`/`next` arithmetic of the `GList`. -/

def segLen (L : List Nat) (s : Nat) : Nat := L.getD s 0

def segStart : List Nat → Nat → Nat
  | _, 0 => 0
  | [], _ + 1 => 0
  | a :: tl, s + 1 => (a + 3) + segStart tl s

def flatPos (L : List Nat) (p : Nat × Nat) : Nat := segStart L p.1 + p.2

def isNulCell (L : List Nat) (p : Nat × Nat) : Bool := p.2 = segLen L p.1 + 2

def leftOf (L : List Nat) (p : Nat × Nat) : Nat × Nat :=
  if p.2 = 0 then (p.1 - 1, segLen L (p.1 - 1) + 2) else (p.1, p.2 - 1)

def rightOf (L : List Nat) (p : Nat × Nat) : Nat × Nat :=
  if isNulCell L p then (p.1 + 1, 0) else (p.1, p.2 + 1)

structure StripState where
  j : Nat × Nat
  k : Nat × Nat
  start_tab : Nat
  end_tab : Nat
  length : Nat
  dirLeft : Bool
deriving Repr, DecidableEq

/-- The alternating growth loop of `display_info` (panel.c:6039-6072).
One iteration: on a left turn (`dir == -1`), if `j` is not at the buffer
start, count one column and move `j` left, following `start_tab` to the
previous ring member when `j` lands on a NUL separator; on a right turn,
if `k` is not stuck on the final NUL of the last tab, advance `end_tab`
when `k` sits on a NUL, then move `k` right and count one column.  The
direction flips each iteration and the loop breaks once both ends hit the
buffer boundaries.  Each pair of iterations grows `length` unless the
break fires, so `2 * max_length + 4` fuel is never exhausted; exhaustion
returns the running state. -/
def stripLoop (L : List Nat) (max_length : Nat) : Nat → StripState → StripState
  | 0, st => st
  | fuel + 1, st =>
    if st.length < max_length then
      let st1 :=
        if st.dirLeft then
          if st.j ≠ (0, 0) then
            { st with
              length := st.length + 1
              j := leftOf L st.j
              start_tab := if isNulCell L (leftOf L st.j) then
                  (st.start_tab + L.length - 1) % L.length
                else st.start_tab }
          else st
        else
          if ¬ isNulCell L st.k ∨ st.end_tab ≠ L.length - 1 then
            { st with
              end_tab := if isNulCell L st.k then (st.end_tab + 1) % L.length
                else st.end_tab
              k := rightOf L st.k
              length := st.length + 1 }
          else st
      let st2 := { st1 with dirLeft := ¬ st1.dirLeft }
      if st2.j = (0, 0) ∧ isNulCell L st2.k ∧ st2.end_tab = L.length - 1 then st2
      else stripLoop L max_length fuel st2
    else st

/-- The `TabDisplayInfo` result (panel.h:103-109) — ring indices for
`start_tab`/`end_tab`, the truncation offsets, the two scroll flags of the
`scroll` bitmask — extended by the final values of the local edge pointers
`j` and `k` (`jfin`, `kfin`), which the C code drops but which delimit the
computed window. -/
structure TabDisplayInfo where
  start_tab : Nat
  end_tab : Nat
  start_idx : Int
  end_idx : Int
  scroll_left : Bool
  scroll_right : Bool
  jfin : Nat × Nat
  kfin : Nat × Nat
deriving Repr, DecidableEq

/-- `display_info` (panel.c:5977-6136) on the list of tab titles (in head
order) and the current tab's ring index; `max_length = w->cols - 2`.  The
single-tab early return (panel.c:5992-5995) keeps the zero-initialised
result with `end_idx = -1` and both edges on the current tab; `jfin`/`kfin`
are set to the current tab's whole segment there.  Otherwise the window
starts as exactly the current tab's wrapped title
(`length = strlen (current) + 3`, `j` at the segment start, `k` on its
NUL), grows by `stripLoop`, and the final `j`/`k` are folded into the
truncation offsets: a left edge exactly on a NUL yields offset 0 with
`start_tab` moved forward past the separator; otherwise
`start_idx = strlen (title) - strlen (j) + 1`, which is `offset - 1` (the
`strcmp (j, " ")` special case is `offset = len + 1`, yielding
`strlen (title) - 1`); symmetrically for the right edge, with the negative
clamp of panel.c:6115-6118. -/
def display_info (titles : List (List Char)) (c : Nat) (max_length : Nat) :
    TabDisplayInfo :=
  let n := titles.length
  let L := titles.map List.length
  if n ≤ 1 then
    { start_tab := c, end_tab := c, start_idx := 0, end_idx := -1,
      scroll_left := false, scroll_right := false,
      jfin := (c, 0), kfin := (c, segLen L c + 2) }
  else
    let st0 : StripState :=
      { j := (c, 0), k := (c, segLen L c + 2), start_tab := c, end_tab := c,
        length := segLen L c + 5, dirLeft := true }
    let st := stripLoop L max_length (2 * max_length + 4) st0
    let stlen := segLen L st.start_tab
    let start_idx : Int :=
      if isNulCell L st.j then 0
      else if st.j.2 = stlen + 1 then (stlen : Int) - 1
      else (st.j.2 : Int) - 1
    let start_tab2 :=
      if isNulCell L st.j then
        (if st.start_tab ≠ st.end_tab then (st.start_tab + 1) % n else st.start_tab)
      else st.start_tab
    let scroll_left_mid :=
      (¬ isNulCell L st.j) ∧ st.j.2 ≠ stlen + 1 ∧ st.j.2 = 1 ∧ st.start_tab ≠ 0
    let elen := segLen L st.end_tab
    let end_idx : Int :=
      if isNulCell L st.k then -1
      else if st.k.2 = elen + 1 then (elen : Int)
      else max ((st.k.2 : Int) - 1) 0
    let scroll_right_str := (¬ isNulCell L st.k) ∧ st.k.2 = elen + 1
    { start_tab := start_tab2, end_tab := st.end_tab,
      start_idx := start_idx, end_idx := end_idx,
      scroll_left := decide scroll_left_mid || decide (start_tab2 ≠ 0 ∨ start_idx > 0),
      scroll_right := decide scroll_right_str ||
        decide (st.end_tab ≠ n - 1 ∨ end_idx ≠ -1),
      jfin := st.j, kfin := st.k }

theorem segStart_succ (L : List Nat) (s : Nat) (h : s < L.length) :
    segStart L (s + 1) = segStart L s + (segLen L s + 3) := by
  induction L generalizing s with
  | nil => simp at h
  | cons a tl ih =>
    cases s with
    | zero => simp [segStart, segLen]
    | succ m =>
      have := ih m (by simpa using h)
      simp only [segStart, segLen, List.getD_cons_succ] at this ⊢
      omega

theorem flat_leftOf (L : List Nat) (p : Nat × Nat) (hp2 : p.2 ≤ segLen L p.1 + 2)
    (hne : p ≠ (0, 0)) (hlt : p.1 < L.length) :
    flatPos L (leftOf L p) + 1 = flatPos L p := by
  unfold leftOf flatPos
  by_cases h0 : p.2 = 0
  · rw [if_pos h0]
    have hs : 1 ≤ p.1 := by
      rcases Nat.eq_zero_or_pos p.1 with h | h
      · exfalso
        apply hne
        obtain ⟨a, b⟩ := p
        simp only at h0 h
        rw [h0, h]
      · exact h
    have hss := segStart_succ L (p.1 - 1) (by omega)
    have hrw : p.1 - 1 + 1 = p.1 := by omega
    rw [hrw] at hss
    simp only
    omega
  · rw [if_neg h0]
    simp only
    omega

theorem flat_rightOf (L : List Nat) (p : Nat × Nat) (hlt : p.1 < L.length) :
    flatPos L (rightOf L p) = flatPos L p + 1 := by
  unfold rightOf flatPos
  by_cases h0 : isNulCell L p = true
  · rw [if_pos h0]
    unfold isNulCell at h0
    simp only [decide_eq_true_eq] at h0
    have hss := segStart_succ L p.1 hlt
    simp only
    omega
  · rw [if_neg h0]
    simp only
    omega

/-- The invariant maintained by `stripLoop`: the `start_tab`/`end_tab`
pointers track the segments of `j`/`k`; the offsets stay within their
segments; `j` never moves right of the current tab's segment start and `k`
never left of its NUL; `k` stays inside the ring; and `length` counts the
flat extent of the window plus 3, bounded by
`max (initial length) max_length`. -/
def StripInv (L : List Nat) (c max_length : Nat) (st : StripState) : Prop :=
  st.start_tab = st.j.1 ∧
  st.end_tab = st.k.1 ∧
  st.j.2 ≤ segLen L st.j.1 + 2 ∧
  st.k.2 ≤ segLen L st.k.1 + 2 ∧
  st.j.1 ≤ c ∧
  (st.j.1 = c → st.j.2 = 0) ∧
  c ≤ st.k.1 ∧
  (st.k.1 = c → st.k.2 = segLen L c + 2) ∧
  st.k.1 < L.length ∧
  flatPos L st.j ≤ flatPos L st.k ∧
  st.length = flatPos L st.k - flatPos L st.j + 3 ∧
  st.length ≤ max (segLen L c + 5) max_length

theorem stripLoop_inv (L : List Nat) (c max_length : Nat) (hc : c < L.length) :
    ∀ (fuel : Nat) (st : StripState), StripInv L c max_length st →
    StripInv L c max_length (stripLoop L max_length fuel st) := by
  intro fuel
  induction fuel with
  | zero => intro st h; exact h
  | succ n ih =>
    intro st h
    obtain ⟨ha, hb, hj2, hk2, hjc, hjc0, hck, hckN, hkn, hjk, hlen, hmax⟩ := h
    unfold stripLoop
    split
    · rename_i hguard
      have hstep : ∀ st1 : StripState, StripInv L c max_length st1 →
          StripInv L c max_length
            (if { st1 with dirLeft := ¬ st1.dirLeft }.j = (0, 0) ∧
                isNulCell L { st1 with dirLeft := ¬ st1.dirLeft }.k = true ∧
                { st1 with dirLeft := ¬ st1.dirLeft }.end_tab = L.length - 1 then
              { st1 with dirLeft := ¬ st1.dirLeft }
            else stripLoop L max_length n { st1 with dirLeft := ¬ st1.dirLeft }) := by
        intro st1 h1
        have h2 : StripInv L c max_length { st1 with dirLeft := ¬ st1.dirLeft } := h1
        split
        · exact h2
        · exact ih _ h2
      apply hstep
      split
      · -- left turn
        split
        · -- j can move
          rename_i hdir hjne
          have hjlt : st.j.1 < L.length := by omega
          have hflat := flat_leftOf L st.j hj2 hjne hjlt
          by_cases h0 : st.j.2 = 0
          · -- crossing onto the previous segment's NUL
            have hs1 : 1 ≤ st.j.1 := by
              by_contra hcon
              have hz : st.j.1 = 0 := by omega
              exact hjne (Prod.ext hz h0)
            have hleft : leftOf L st.j = (st.j.1 - 1, segLen L (st.j.1 - 1) + 2) := by
              unfold leftOf
              rw [if_pos h0]
            have hnul : isNulCell L (st.j.1 - 1, segLen L (st.j.1 - 1) + 2) = true := by
              unfold isNulCell
              simp
            have hmod : (st.start_tab + L.length - 1) % L.length = st.j.1 - 1 := by
              rw [ha]
              have hr : st.j.1 + L.length - 1 = (st.j.1 - 1) + L.length := by omega
              rw [hr, Nat.add_mod_right]
              exact Nat.mod_eq_of_lt (by omega)
            refine ⟨?_, hb, ?_, hk2, ?_, ?_, hck, hckN, hkn, ?_, ?_, ?_⟩
            · simp only [hleft, hnul, hmod]
              rfl
            · rw [hleft]
            · rw [hleft]; simp only; omega
            · rw [hleft]
              intro hcontra
              simp only at hcontra
              omega
            · simp only
              omega
            · simp only
              omega
            · simp only
              omega
          · -- moving within the same segment
            have hleft : leftOf L st.j = (st.j.1, st.j.2 - 1) := by
              unfold leftOf
              rw [if_neg h0]
            have hnul : isNulCell L (st.j.1, st.j.2 - 1) = false := by
              unfold isNulCell
              simp only [decide_eq_false_iff_not]
              omega
            refine ⟨?_, hb, ?_, hk2, ?_, ?_, hck, hckN, hkn, ?_, ?_, ?_⟩
            · simp only [hleft, hnul]
              exact ha
            · rw [hleft]; simp only; omega
            · rw [hleft]; simp only; omega
            · rw [hleft]
              intro hcontra
              simp only at hcontra ⊢
              have := hjc0 hcontra
              omega
            · simp only
              omega
            · simp only
              omega
            · simp only
              omega
        · -- j blocked: state unchanged
          exact ⟨ha, hb, hj2, hk2, hjc, hjc0, hck, hckN, hkn, hjk, hlen, hmax⟩
      · -- right turn
        split
        · rename_i hdir hkguard
          have hflat := flat_rightOf L st.k hkn
          by_cases h0 : isNulCell L st.k = true
          · -- k on a NUL: advance end_tab and enter the next segment
            have hko : st.k.2 = segLen L st.k.1 + 2 := by
              unfold isNulCell at h0
              simpa using h0
            have hkne : st.end_tab ≠ L.length - 1 := by
              rcases hkguard with hg | hg
              · exact absurd h0 hg
              · exact hg
            have hklt : st.k.1 + 1 < L.length := by
              rw [hb] at hkne
              omega
            have hright : rightOf L st.k = (st.k.1 + 1, 0) := by
              unfold rightOf
              rw [if_pos h0]
            have hmod : (st.end_tab + 1) % L.length = st.k.1 + 1 := by
              rw [hb]
              exact Nat.mod_eq_of_lt hklt
            refine ⟨ha, ?_, hj2, ?_, hjc, hjc0, ?_, ?_, ?_, ?_, ?_, ?_⟩
            · simp only [h0, if_true, hmod, hright]
            · rw [hright]; simp only; omega
            · rw [hright]; simp only; omega
            · rw [hright]
              intro hcontra
              simp only at hcontra
              omega
            · rw [hright]
              simpa using hklt
            · simp only
              omega
            · simp only
              omega
            · simp only
              omega
          · -- k within a segment
            have hko : st.k.2 ≠ segLen L st.k.1 + 2 := by
              unfold isNulCell at h0
              simpa using h0
            have hright : rightOf L st.k = (st.k.1, st.k.2 + 1) := by
              unfold rightOf
              rw [if_neg h0]
            refine ⟨ha, ?_, hj2, ?_, hjc, hjc0, ?_, ?_, ?_, ?_, ?_, ?_⟩
            · simp only [h0, if_false, hright, Bool.false_eq_true, hb]
            · rw [hright]; simp only; omega
            · rw [hright]; simp only; omega
            · rw [hright]
              intro hcontra
              simp only at hcontra ⊢
              have := hckN hcontra
              rw [hcontra] at hko
              omega
            · rw [hright]
              simpa using hkn
            · simp only
              omega
            · simp only
              omega
            · simp only
              omega
        · exact ⟨ha, hb, hj2, hk2, hjc, hjc0, hck, hckN, hkn, hjk, hlen, hmax⟩
    · exact ⟨ha, hb, hj2, hk2, hjc, hjc0, hck, hckN, hkn, hjk, hlen, hmax⟩

/-- C5: for every tab ring (a title list with the current index in range)
whose current title obeys the bound `get_tab_title` guarantees
(`strlen (title) + 3 <= max_length`: `get_tab_title` (panel.c:5914-5974)
cuts every title to at most `min (MAX_TAB_TITLE, cols - 5)` characters
including the highlight mark, and `max_length = w->cols - 2`,
panel.c:5980), the window computed by `display_info` fully contains the
current tab's title and never exceeds the strip's usable width: when the
current tab is the start tab the left truncation offset is at most 0 (no
cut from the left, 0 on both edges when it is the sole visible tab), when
it is the end tab the right truncation offset is -1 (no cut from the
right), and the flat width of the window delimited by the final edge
pointers is at most `max_length`. -/
theorem display_info_contains_current (titles : List (List Char)) (c max_length : Nat)
    (hc : c < titles.length)
    (hbound : segLen (titles.map List.length) c + 3 ≤ max_length) :
    ((display_info titles c max_length).start_tab = c →
      (display_info titles c max_length).start_idx ≤ 0) ∧
    ((display_info titles c max_length).end_tab = c →
      (display_info titles c max_length).end_idx = -1) ∧
    flatPos (titles.map List.length) (display_info titles c max_length).kfin + 1 ≤
      flatPos (titles.map List.length) (display_info titles c max_length).jfin +
        max_length := by
  by_cases hn : titles.length ≤ 1
  · unfold display_info
    simp only
    rw [if_pos hn]
    refine ⟨fun _ => le_refl 0, fun _ => rfl, ?_⟩
    simp only [flatPos]
    omega
  · have hc' : c < (titles.map List.length).length := by simpa using hc
    have hinv := stripLoop_inv (titles.map List.length) c max_length hc'
      (2 * max_length + 4)
      { j := (c, 0)
        k := (c, segLen (titles.map List.length) c + 2)
        start_tab := c
        end_tab := c
        length := segLen (titles.map List.length) c + 5
        dirLeft := true }
      ⟨rfl, rfl, Nat.zero_le _, le_refl _, le_refl c, fun _ => rfl, le_refl c,
        fun _ => rfl, hc', by simp [flatPos], by simp only [flatPos]; omega,
        le_max_left _ _⟩
    unfold display_info
    simp only
    rw [if_neg hn]
    set st := stripLoop (titles.map List.length) max_length (2 * max_length + 4)
      { j := (c, 0)
        k := (c, segLen (titles.map List.length) c + 2)
        start_tab := c
        end_tab := c
        length := segLen (titles.map List.length) c + 5
        dirLeft := true } with hst
    obtain ⟨ha, hb, hj2, hk2, hjc, hjc0, hck, hckN, hkn, hjk, hlen, hmax⟩ := hinv
    refine ⟨?_, ?_, ?_⟩
    · by_cases hj : isNulCell (titles.map List.length) st.j = true
      · rw [if_pos hj, if_pos hj]
        intro _
        exact le_refl 0
      · rw [if_neg hj, if_neg hj]
        intro he
        have hj1 : st.j.1 = c := by rw [← ha]; exact he
        have hz : st.j.2 = 0 := hjc0 hj1
        rw [hz]
        rw [if_neg (by omega)]
        dsimp only
        omega
    · intro he
      have hk1 : st.k.1 = c := by rw [← hb]; exact he
      have hnk : isNulCell (titles.map List.length) st.k = true := by
        unfold isNulCell
        simp only [decide_eq_true_eq]
        rw [hk1]
        exact hckN hk1
      rw [if_pos hnk]
    · have hmax2 : st.length ≤ max_length + 2 :=
        le_trans hmax (max_le (by omega) (by omega))
      dsimp only
      omega

/-- Witness for C5: the three-tab ring with one-character titles, current
tab 1, usable width 40. -/
theorem display_info_contains_current_witness :
    ((1 : Nat) < ([['A'], ['B'], ['C']] : List (List Char)).length ∧
      segLen (([['A'], ['B'], ['C']] : List (List Char)).map List.length) 1 + 3 ≤ 40) ∧
    (((display_info [['A'], ['B'], ['C']] 1 40).start_tab = 1 →
      (display_info [['A'], ['B'], ['C']] 1 40).start_idx ≤ 0) ∧
    ((display_info [['A'], ['B'], ['C']] 1 40).end_tab = 1 →
      (display_info [['A'], ['B'], ['C']] 1 40).end_idx = -1) ∧
    flatPos (([['A'], ['B'], ['C']] : List (List Char)).map List.length)
        (display_info [['A'], ['B'], ['C']] 1 40).kfin + 1 ≤
      flatPos (([['A'], ['B'], ['C']] : List (List Char)).map List.length)
        (display_info [['A'], ['B'], ['C']] 1 40).jfin + 40) :=
  ⟨⟨by decide, by decide⟩,
    display_info_contains_current [['A'], ['B'], ['C']] 1 40 (by decide) (by decide)⟩
